import Mathlib

/-!
Shallow embedding of the Leverr language core (lexer, Pratt parser,
Hindley-Milner unifier and inferencer, tree-walking evaluator) translated
from the TypeScript sources, together with theorems settling the claims
about it.

Modelling conventions, applied uniformly:
* Source spans are dropped: in the sources they are pure bookkeeping that is
  attached to tokens/nodes and rendered into error messages, and never
  influence control flow.  Tokens are (kind, lexeme) pairs; lexemes are
  `List Char`.
* JS `Map` objects are modelled as association lists: `set` prepends a
  binding and `get` takes the first match, which yields the same lookup
  results as the mutable `Map` (latest binding wins).
* All recursive interpreter functions take an explicit fuel argument and
  are structurally recursive on it, so that concrete runs reduce inside the
  kernel.  Running out of fuel is a distinguished outcome, never identified
  with a source-level error.
* JS numbers: integer values are modelled as `Int` (the programs under
  study stay far below 2^53, where JS doubles and integers agree), float
  values as `Rat`; no claim depends on IEEE rounding.
-/

namespace Leverr

/-- Token kinds, from `token.ts` (`export enum TokenKind`). -/
inductive TokenKind where
  | Int | Float | String | True | False
  | Let | Rec | Fn | Match | Catch | In | If
  | Ident | UpperIdent
  | Plus | Minus | Star | Slash | Percent | PlusPlus
  | Eq | EqEq | BangEq | Lt | Gt | LtEq | GtEq
  | AmpAmp | PipePipe | Bang | Arrow | Pipe | Question
  | LParen | RParen | LBrace | RBrace | LBracket | RBracket
  | Comma | Dot | Colon | Underscore
  | EOF
  deriving DecidableEq, Repr

/-- A token is a (kind, lexeme) pair; the span is dropped (see header). -/
abbrev Tok := TokenKind × List Char

/-- `isDigit` from `lexer.ts`. -/
def isDigit (c : Char) : Bool := '0' ≤ c && c ≤ '9'

/-- `isAlpha` from `lexer.ts`. -/
def isAlpha (c : Char) : Bool :=
  ('a' ≤ c && c ≤ 'z') || ('A' ≤ c && c ≤ 'Z') || c = '_'

/-- `isAlphaNumeric` from `lexer.ts`. -/
def isAlphaNumeric (c : Char) : Bool := isAlpha c || isDigit c

/-- The `KEYWORDS` table from `lexer.ts`. -/
def KEYWORDS : List (List Char × TokenKind) :=
  [(['l','e','t'], .Let), (['r','e','c'], .Rec), (['f','n'], .Fn),
   (['m','a','t','c','h'], .Match), (['c','a','t','c','h'], .Catch),
   (['i','n'], .In), (['i','f'], .If), (['t','r','u','e'], .True),
   (['f','a','l','s','e'], .False)]

/-- The keyword lookup `KEYWORDS[lexeme]` from `lexer.ts`. -/
def keywordKind (lx : List Char) : Option TokenKind :=
  (KEYWORDS.find? (fun p => p.1 = lx)).map Prod.snd

/-- Whitespace characters skipped by `skipWhitespace` in `lexer.ts`. -/
def isWs (c : Char) : Bool := c = ' ' || c = '\t' || c = '\n' || c = '\r'

/-- `skipWhitespace` from `lexer.ts`, with the inner line-comment loop fused
into a boolean "inside a comment" mode so the recursion is structural.  In
comment mode every character up to the newline is consumed; the newline
itself is then consumed as whitespace, exactly as in the source where the
comment loop stops at the newline and the outer loop eats it. -/
def skipWsA : Bool → List Char → List Char
  | _, [] => []
  | true, c :: cs => if c = '\n' then skipWsA false cs else skipWsA true cs
  | false, c :: cs =>
    if isWs c then skipWsA false cs
    else if c = '-' && (cs.head?.getD '\x00') = '-' then skipWsA true cs
    else c :: cs

def skipWs : List Char → List Char := skipWsA false

/-- Body of `readString` from `lexer.ts`, after the opening quote: returns
the content characters and the input after the closing quote, or `none` for
an unterminated string (newline or end of input). -/
def readStrBody : List Char → Option (List Char × List Char)
  | [] => none
  | c :: cs =>
    if c = '"' then some ([], cs)
    else if c = '\n' then none
    else match readStrBody cs with
      | some (content, rest) => some (c :: content, rest)
      | none => none

/-- `readNumber` from `lexer.ts`: digits, then optionally a dot followed by
at least one digit.  Returns (lexeme, isFloat, rest). -/
def readNumber (s : List Char) : List Char × Bool × List Char :=
  let ds := s.takeWhile isDigit
  let r := s.dropWhile isDigit
  match r with
  | c :: rest2 =>
    if c = '.' then
      match rest2 with
      | c2 :: rest3 =>
        if isDigit c2 then
          (ds ++ '.' :: (c2 :: rest3).takeWhile isDigit, true,
            (c2 :: rest3).dropWhile isDigit)
        else (ds, false, c :: rest2)
      | [] => (ds, false, c :: rest2)
    else (ds, false, c :: rest2)
  | [] => (ds, false, r)

/-- The two-character operator table from `lexer.ts` (tried before single
characters, in source order; the patterns are mutually exclusive). -/
def TWOCHAR : List ((Char × Char) × TokenKind) :=
  [(('|', '>'), .Pipe), (('|', '|'), .PipePipe), (('+', '+'), .PlusPlus),
   (('-', '>'), .Arrow), (('=', '='), .EqEq), (('!', '='), .BangEq),
   (('<', '='), .LtEq), (('>', '='), .GtEq), (('&', '&'), .AmpAmp)]

def twoCharOp (a b : Char) : Option (TokenKind × List Char) :=
  (TWOCHAR.find? (fun p => p.1 = (a, b))).map (fun p => (p.2, [p.1.1, p.1.2]))

/-- The single-character token table from `lexer.ts`. -/
def SINGLECHAR : List (Char × TokenKind) :=
  [('+', .Plus), ('-', .Minus), ('*', .Star), ('/', .Slash), ('%', .Percent),
   ('=', .Eq), ('<', .Lt), ('>', .Gt), ('!', .Bang), ('?', .Question),
   ('(', .LParen), (')', .RParen), ('{', .LBrace), ('}', .RBrace),
   ('[', .LBracket), (']', .RBracket), (',', .Comma), ('.', .Dot),
   (':', .Colon), ('_', .Underscore)]

def singleCharOp (c : Char) : Option TokenKind :=
  (SINGLECHAR.find? (fun p => p.1 = c)).map Prod.snd

def singleOrErr (c : Char) (cs : List Char) : Except String (Option (Tok × List Char)) :=
  match singleCharOp c with
  | some k => .ok (some ((k, [c]), cs))
  | none => .error ("Unexpected character " ++ String.mk [c])

/-- One classification step of the scanner loop in `lex` (`lexer.ts`),
applied to input with leading whitespace/comments already skipped.
`ok none` means end of input (the loop exits). -/
def lexStep : List Char → Except String (Option (Tok × List Char))
  | [] => .ok none
  | c :: cs =>
    if isDigit c then
      let (lx, isFloat, rest) := readNumber (c :: cs)
      .ok (some ((if isFloat then .Float else .Int, lx), rest))
    else if c = '"' then
      match readStrBody cs with
      | some (content, rest) => .ok (some ((.String, '"' :: (content ++ ['"'])), rest))
      | none => .error "unterminated string"
    else if c = '_' && !(isAlphaNumeric (cs.head?.getD '\x00')) then
      .ok (some ((.Underscore, ['_']), cs))
    else if isAlpha c then
      let lx := (c :: cs).takeWhile isAlphaNumeric
      let rest := (c :: cs).dropWhile isAlphaNumeric
      match keywordKind lx with
      | some k => .ok (some ((k, lx), rest))
      | none =>
        if 'A' ≤ c && c ≤ 'Z' then .ok (some ((.UpperIdent, lx), rest))
        else .ok (some ((.Ident, lx), rest))
    else
      match cs with
      | c2 :: cs2 =>
        match twoCharOp c c2 with
        | some (k, lx) => .ok (some ((k, lx), cs2))
        | none => singleOrErr c cs
      | [] => singleOrErr c cs

/-- The scanner loop of `lex` (`lexer.ts`), fuelled; emits the tokens
before the end-of-input sentinel. -/
def lexLoop : Nat → List Char → Except String (List Tok)
  | 0, _ => .error "FUEL"
  | fuel + 1, s =>
    match lexStep (skipWs s) with
    | .error e => .error e
    | .ok none => .ok []
    | .ok (some (t, rest)) =>
      match lexLoop fuel rest with
      | .error e => .error e
      | .ok ts => .ok (t :: ts)

/-- `lex` from `lexer.ts`: scan all tokens and append the EOF sentinel
(whose lexeme is empty).  The scanner consumes at least one character per
emitted token, so `length + 1` fuel always suffices. -/
def lex (s : List Char) : Except String (List Tok) :=
  match lexLoop (s.length + 1) s with
  | .error e => .error e
  | .ok ts => .ok (ts ++ [(.EOF, [])])

/-- Patterns, from `ast.ts`. -/
inductive Pattern where
  | IntPat (value : Int)
  | FloatPat (value : Rat)
  | StringPat (value : String)
  | BoolPat (value : Bool)
  | WildcardPat
  | IdentPat (name : String)
  | TagPat (tag : String) (args : List Pattern)
  | TuplePat (elements : List Pattern)
  | RecordPat (fields : List (String × Pattern))

/-- Expressions, from `ast.ts` (spans dropped).  The TS field `rec` is
called `recFlag` because `rec` is reserved in Lean. -/
inductive Expr where
  | IntLit (value : Int)
  | FloatLit (value : Rat)
  | StringLit (value : String)
  | BoolLit (value : Bool)
  | UnitLit
  | Ident (name : String)
  | Let (name : String) (value body : Expr) (recFlag : Bool)
  | Fn (param : String) (body : Expr)
  | Call (fn arg : Expr)
  | BinOp (op : String) (left right : Expr)
  | UnaryOp (op : String) (expr : Expr)
  | Pipe (left right : Expr)
  | Try (expr : Expr)
  | Catch (expr : Expr) (errorName : String) (fallback : Expr)
  | Match (subject : Expr) (cases : List (Pattern × Expr))
  | If (cond thenE elseE : Expr)
  | List (elements : List Expr)
  | Tuple (elements : List Expr)
  | Record (fields : List (String × Expr))
  | FieldAccess (expr : Expr) (field : String)
  | Tag (tag : String) (args : List Expr)

/-- Printable name of a token kind (the TS enum's string value), used in
parse-error messages. -/
def kindName : TokenKind → String
  | .Int => "Int" | .Float => "Float" | .String => "String"
  | .True => "True" | .False => "False"
  | .Let => "Let" | .Rec => "Rec" | .Fn => "Fn" | .Match => "Match"
  | .Catch => "Catch" | .In => "In" | .If => "If"
  | .Ident => "Ident" | .UpperIdent => "UpperIdent"
  | .Plus => "Plus" | .Minus => "Minus" | .Star => "Star" | .Slash => "Slash"
  | .Percent => "Percent" | .PlusPlus => "PlusPlus"
  | .Eq => "Eq" | .EqEq => "EqEq" | .BangEq => "BangEq"
  | .Lt => "Lt" | .Gt => "Gt" | .LtEq => "LtEq" | .GtEq => "GtEq"
  | .AmpAmp => "AmpAmp" | .PipePipe => "PipePipe" | .Bang => "Bang"
  | .Arrow => "Arrow" | .Pipe => "Pipe" | .Question => "Question"
  | .LParen => "LParen" | .RParen => "RParen"
  | .LBrace => "LBrace" | .RBrace => "RBrace"
  | .LBracket => "LBracket" | .RBracket => "RBracket"
  | .Comma => "Comma" | .Dot => "Dot" | .Colon => "Colon"
  | .Underscore => "Underscore" | .EOF => "EOF"

/-- `Parser.peek` (`parser.ts`).  The lexer terminates every stream with the
EOF sentinel, so the empty-list case is unreachable on lexer output; it is
modelled as the sentinel itself. -/
def peekT : List Tok → Tok
  | [] => (.EOF, [])
  | t :: _ => t

def peekKind (toks : List Tok) : TokenKind := (peekT toks).1

/-- `Parser.expect` (`parser.ts`). -/
def expectT (k : TokenKind) (toks : List Tok) : Except String (Tok × List Tok) :=
  let t := peekT toks
  if t.1 = k then .ok (t, toks.drop 1)
  else .error ("Expected " ++ kindName k ++ " but got " ++ kindName t.1)

/-- `PREFIX_BP` from `parser.ts`. -/
def PREFIX_BP : Nat := 80

/-- `POSTFIX_BP` from `parser.ts`. -/
def POSTFIX_BP : Nat := 90

/-- `infixBp` from `parser.ts`: (left, right) binding powers. -/
def infixBp : TokenKind → Option (Nat × Nat)
  | .Pipe => some (5, 6)
  | .PipePipe => some (10, 11)
  | .AmpAmp => some (20, 21)
  | .EqEq => some (30, 31)
  | .BangEq => some (30, 31)
  | .Lt => some (40, 41)
  | .Gt => some (40, 41)
  | .LtEq => some (40, 41)
  | .GtEq => some (40, 41)
  | .PlusPlus => some (50, 51)
  | .Plus => some (60, 61)
  | .Minus => some (60, 61)
  | .Star => some (70, 71)
  | .Slash => some (70, 71)
  | .Percent => some (70, 71)
  | .Dot => some (95, 96)
  | _ => none

/-- `tokenToOp` from `parser.ts` (total here, returning `none` where the
source throws; the parser turns `none` into the same error). -/
def tokenToOp : TokenKind → Option String
  | .Plus => some "+"
  | .Minus => some "-"
  | .Star => some "*"
  | .Slash => some "/"
  | .Percent => some "%"
  | .PlusPlus => some "++"
  | .EqEq => some "=="
  | .BangEq => some "!="
  | .Lt => some "<"
  | .Gt => some ">"
  | .LtEq => some "<="
  | .GtEq => some ">="
  | .AmpAmp => some "&&"
  | .PipePipe => some "||"
  | _ => none

/-- `parseInt(lexeme, 10)` on an all-digit lexeme. -/
def parseIntLexeme (l : List Char) : Int :=
  Int.ofNat (l.foldl (fun n c => n * 10 + (c.toNat - 48)) 0)

/-- `parseFloat(lexeme)` on a `digits.digits` lexeme, as a rational. -/
def parseFloatLexeme (l : List Char) : Rat :=
  let ip := l.takeWhile (fun c => c ≠ '.')
  let fp := (l.dropWhile (fun c => c ≠ '.')).drop 1
  (parseIntLexeme ip : Rat) + (parseIntLexeme fp : Rat) / ((10 : Rat) ^ fp.length)

/-- `lexeme.slice(1, -1)`: strip the surrounding quotes of a string lexeme. -/
def sliceQuotes (l : List Char) : String := ((l.drop 1).dropLast).asString

/-!
The Pratt parser from `parser.ts`, fuelled.  Each source loop
(`parseExpr`'s operator loop, the call-argument loop after an identifier,
comma-separated element lists, match-case lists) becomes a fuelled
recursive function.  `advance` is modelled by `List.drop 1`.
-/
mutual

/-- `Parser.parseExpr` (`parser.ts`): prefix form, then the operator loop. -/
def parseExprF : Nat → Nat → List Tok → Except String (Expr × List Tok)
  | 0, _, _ => .error "FUEL"
  | fuel + 1, minBp, toks => do
    let (left, toks) ← nudF fuel toks
    parseLoopF fuel minBp left toks

/-- The `while` loop inside `Parser.parseExpr`: postfix `?`, then infix
operators whose left binding power is at least `minBp`. -/
def parseLoopF : Nat → Nat → Expr → List Tok → Except String (Expr × List Tok)
  | 0, _, _, _ => .error "FUEL"
  | fuel + 1, minBp, left, toks =>
    if peekKind toks = .Question && POSTFIX_BP ≥ minBp then
      parseLoopF fuel minBp (.Try left) (toks.drop 1)
    else
      match infixBp (peekKind toks) with
      | none => .ok (left, toks)
      | some bp =>
        if bp.1 < minBp then .ok (left, toks)
        else do
          let (left', toks') ← ledF fuel left bp toks
          parseLoopF fuel minBp left' toks'

/-- `Parser.led` (`parser.ts`). -/
def ledF : Nat → Expr → Nat × Nat → List Tok → Except String (Expr × List Tok)
  | 0, _, _, _ => .error "FUEL"
  | fuel + 1, left, bp, toks =>
    let op := peekT toks
    let toks := toks.drop 1
    if op.1 = .Dot then do
      let (fieldT, toks) ← expectT .Ident toks
      .ok (.FieldAccess left fieldT.2.asString, toks)
    else if op.1 = .Pipe then do
      let (right, toks) ← parseExprF fuel bp.2 toks
      .ok (.Pipe left right, toks)
    else
      match tokenToOp op.1 with
      | some opStr => do
        let (right, toks) ← parseExprF fuel bp.2 toks
        .ok (.BinOp opStr left right, toks)
      | none => .error ("Unknown operator token: " ++ kindName op.1)

/-- `Parser.nud` (`parser.ts`). -/
def nudF : Nat → List Tok → Except String (Expr × List Tok)
  | 0, _ => .error "FUEL"
  | fuel + 1, toks =>
    let t := peekT toks
    match t.1 with
    | .Int => .ok (.IntLit (parseIntLexeme t.2), toks.drop 1)
    | .Float => .ok (.FloatLit (parseFloatLexeme t.2), toks.drop 1)
    | .String => .ok (.StringLit (sliceQuotes t.2), toks.drop 1)
    | .True => .ok (.BoolLit true, toks.drop 1)
    | .False => .ok (.BoolLit false, toks.drop 1)
    | .Ident => callLoopF fuel (.Ident t.2.asString) (toks.drop 1)
    | .Let => parseLetF fuel toks
    | .Fn => parseFnF fuel toks
    | .Match => parseMatchF fuel toks
    | .LBracket =>
      let toks := toks.drop 1
      if peekKind toks = .RBracket then .ok (.List [], toks.drop 1)
      else do
        let (elements, toks) ← exprCommaLoopF fuel toks
        let (_, toks) ← expectT .RBracket toks
        .ok (.List elements, toks)
    | .Catch => do
      let toks := toks.drop 1
      let (nameT, toks) ← expectT .Ident toks
      let (_, toks) ← expectT .Arrow toks
      let (fallback, toks) ← parseExprF fuel 0 toks
      .ok (.Catch .UnitLit nameT.2.asString fallback, toks)
    | .Bang => do
      let (e, toks) ← parseExprF fuel PREFIX_BP (toks.drop 1)
      .ok (.UnaryOp "!" e, toks)
    | .Minus => do
      let (e, toks) ← parseExprF fuel PREFIX_BP (toks.drop 1)
      .ok (.UnaryOp "-" e, toks)
    | .LParen =>
      let toks := toks.drop 1
      if peekKind toks = .RParen then .ok (.UnitLit, toks.drop 1)
      else do
        let (first, toks) ← parseExprF fuel 0 toks
        if peekKind toks = .Comma then do
          let (restEls, toks) ← exprCommaLoopF fuel (toks.drop 1)
          let (_, toks) ← expectT .RParen toks
          .ok (.Tuple (first :: restEls), toks)
        else do
          let (_, toks) ← expectT .RParen toks
          .ok (first, toks)
    | .LBrace =>
      let toks := toks.drop 1
      if peekKind toks = .RBrace then .ok (.Record [], toks.drop 1)
      else do
        let (fields, toks) ← recordFieldsF fuel toks
        let (_, toks) ← expectT .RBrace toks
        .ok (.Record fields, toks)
    | .UpperIdent =>
      let tag := t.2.asString
      let toks := toks.drop 1
      if peekKind toks = .LParen then
        let toks := toks.drop 1
        if peekKind toks = .RParen then .ok (.Tag tag [], toks.drop 1)
        else do
          let (args, toks) ← exprCommaLoopF fuel toks
          let (_, toks) ← expectT .RParen toks
          .ok (.Tag tag args, toks)
      else .ok (.Tag tag [], toks)
    | _ => .error ("Unexpected token " ++ kindName t.1)

/-- The `while (this.at(TokenKind.LParen))` call loop in `Parser.nud`'s
identifier case. -/
def callLoopF : Nat → Expr → List Tok → Except String (Expr × List Tok)
  | 0, _, _ => .error "FUEL"
  | fuel + 1, e, toks =>
    if peekKind toks = .LParen then do
      let (e', toks') ← parseCallArgsF fuel e toks
      callLoopF fuel e' toks'
    else .ok (e, toks)

/-- `Parser.parseCallArgs` (`parser.ts`): a parenthesized argument list
desugared into left-associated `Call` nodes. -/
def parseCallArgsF : Nat → Expr → List Tok → Except String (Expr × List Tok)
  | 0, _, _ => .error "FUEL"
  | fuel + 1, fnE, toks => do
    let (_, toks) ← expectT .LParen toks
    if peekKind toks = .RParen then .ok (fnE, toks.drop 1)
    else do
      let (args, toks) ← exprCommaLoopF fuel toks
      let (_, toks) ← expectT .RParen toks
      .ok (args.foldl (fun acc a => .Call acc a) fnE, toks)

/-- `parseExpr(0)` then `while eat(Comma) parseExpr(0)`: the comma-separated
expression lists used for call arguments, list literals, tuples and tag
arguments (no trailing comma allowed, as in the source). -/
def exprCommaLoopF : Nat → List Tok → Except String (List Expr × List Tok)
  | 0, _ => .error "FUEL"
  | fuel + 1, toks => do
    let (e, toks) ← parseExprF fuel 0 toks
    if peekKind toks = .Comma then do
      let (es, toks') ← exprCommaLoopF fuel (toks.drop 1)
      .ok (e :: es, toks')
    else .ok ([e], toks)

/-- `Parser.parseLet` (`parser.ts`). -/
def parseLetF : Nat → List Tok → Except String (Expr × List Tok)
  | 0, _ => .error "FUEL"
  | fuel + 1, toks => do
    let (_, toks) ← expectT .Let toks
    let recFlag := peekKind toks = .Rec
    let toks := if peekKind toks = .Rec then toks.drop 1 else toks
    let (nameT, toks) ← expectT .Ident toks
    let (_, toks) ← expectT .Eq toks
    let (value, toks) ← parseExprF fuel 0 toks
    let (_, toks) ← expectT .In toks
    let (body, toks) ← parseExprF fuel 0 toks
    .ok (.Let nameT.2.asString value body recFlag, toks)

/-- `Parser.parseFn` (`parser.ts`): parameter list, arrow, body parsed at
minimum binding power 6 (so a following pipe stays outside the body), then
desugaring into nested single-parameter lambdas. -/
def parseFnF : Nat → List Tok → Except String (Expr × List Tok)
  | 0, _ => .error "FUEL"
  | fuel + 1, toks => do
    let (_, toks) ← expectT .Fn toks
    let (params, toks) ←
      if peekKind toks = .LParen then do
        let toks := toks.drop 1
        if peekKind toks = .RParen then pure (([] : List String), toks.drop 1)
        else do
          let (ps, toks) ← paramListF fuel toks
          let (_, toks) ← expectT .RParen toks
          pure (ps, toks)
      else do
        let (nameT, toks) ← expectT .Ident toks
        pure ([nameT.2.asString], toks)
    let (_, toks) ← expectT .Arrow toks
    let (body, toks) ← parseExprF fuel 6 toks
    let inner := (params.drop 1).foldr (fun p acc => Expr.Fn p acc) body
    .ok (.Fn ((params.head?).getD "_") inner, toks)

/-- The `expect(Ident)` + `while eat(Comma) expect(Ident)` parameter loop in
`Parser.parseFn`. -/
def paramListF : Nat → List Tok → Except String (List String × List Tok)
  | 0, _ => .error "FUEL"
  | fuel + 1, toks => do
    let (nameT, toks) ← expectT .Ident toks
    if peekKind toks = .Comma then do
      let (ps, toks') ← paramListF fuel (toks.drop 1)
      .ok (nameT.2.asString :: ps, toks')
    else .ok ([nameT.2.asString], toks)

/-- `Parser.parseMatch` (`parser.ts`). -/
def parseMatchF : Nat → List Tok → Except String (Expr × List Tok)
  | 0, _ => .error "FUEL"
  | fuel + 1, toks => do
    let (_, toks) ← expectT .Match toks
    let (subject, toks) ← parseExprF fuel 0 toks
    let (_, toks) ← expectT .LBrace toks
    let (cases, toks) ←
      if peekKind toks = .RBrace then pure (([] : List (Pattern × Expr)), toks)
      else matchCasesF fuel toks
    let (_, toks) ← expectT .RBrace toks
    .ok (.Match subject cases, toks)

/-- The match-case loop in `Parser.parseMatch` (trailing comma allowed). -/
def matchCasesF : Nat → List Tok → Except String (List (Pattern × Expr) × List Tok)
  | 0, _ => .error "FUEL"
  | fuel + 1, toks => do
    let (c, toks) ← parseMatchCaseF fuel toks
    if peekKind toks = .Comma then
      let toks' := toks.drop 1
      if peekKind toks' = .RBrace then .ok ([c], toks')
      else do
        let (cs, toks'') ← matchCasesF fuel toks'
        .ok (c :: cs, toks'')
    else .ok ([c], toks)

/-- `Parser.parseMatchCase` (`parser.ts`). -/
def parseMatchCaseF : Nat → List Tok → Except String ((Pattern × Expr) × List Tok)
  | 0, _ => .error "FUEL"
  | fuel + 1, toks => do
    let (p, toks) ← parsePatternF fuel toks
    let (_, toks) ← expectT .Arrow toks
    let (body, toks) ← parseExprF fuel 0 toks
    .ok ((p, body), toks)

/-- The record-field loop in `Parser.nud`'s `LBrace` case (trailing comma
allowed). -/
def recordFieldsF : Nat → List Tok → Except String (List (String × Expr) × List Tok)
  | 0, _ => .error "FUEL"
  | fuel + 1, toks => do
    let (nameT, toks) ← expectT .Ident toks
    let (_, toks) ← expectT .Colon toks
    let (v, toks) ← parseExprF fuel 0 toks
    if peekKind toks = .Comma then
      let toks' := toks.drop 1
      if peekKind toks' = .RBrace then .ok ([(nameT.2.asString, v)], toks')
      else do
        let (fs, toks'') ← recordFieldsF fuel toks'
        .ok ((nameT.2.asString, v) :: fs, toks'')
    else .ok ([(nameT.2.asString, v)], toks)

/-- `Parser.parsePattern` (`parser.ts`). -/
def parsePatternF : Nat → List Tok → Except String (Pattern × List Tok)
  | 0, _ => .error "FUEL"
  | fuel + 1, toks =>
    let t := peekT toks
    match t.1 with
    | .Int => .ok (.IntPat (parseIntLexeme t.2), toks.drop 1)
    | .Float => .ok (.FloatPat (parseFloatLexeme t.2), toks.drop 1)
    | .String => .ok (.StringPat (sliceQuotes t.2), toks.drop 1)
    | .True => .ok (.BoolPat true, toks.drop 1)
    | .False => .ok (.BoolPat false, toks.drop 1)
    | .Underscore => .ok (.WildcardPat, toks.drop 1)
    | .LParen => do
      let (first, toks') ← parsePatternF fuel (toks.drop 1)
      if peekKind toks' = .Comma then do
        let (restPs, toks'') ← patCommaLoopF fuel (toks'.drop 1)
        let (_, toks''') ← expectT .RParen toks''
        .ok (.TuplePat (first :: restPs), toks''')
      else do
        let (_, toks'') ← expectT .RParen toks'
        .ok (first, toks'')
    | .UpperIdent =>
      let tag := t.2.asString
      let toks := toks.drop 1
      if peekKind toks = .LParen then
        let toks := toks.drop 1
        if peekKind toks = .RParen then .ok (.TagPat tag [], toks.drop 1)
        else do
          let (args, toks') ← patCommaLoopF fuel toks
          let (_, toks'') ← expectT .RParen toks'
          .ok (.TagPat tag args, toks'')
      else .ok (.TagPat tag [], toks)
    | .Ident => .ok (.IdentPat t.2.asString, toks.drop 1)
    | _ => .error ("Unexpected pattern token " ++ kindName t.1)

/-- `parsePattern` then `while eat(Comma) parsePattern`: comma-separated
pattern lists for tuple patterns and tag-pattern arguments. -/
def patCommaLoopF : Nat → List Tok → Except String (List Pattern × List Tok)
  | 0, _ => .error "FUEL"
  | fuel + 1, toks => do
    let (p, toks) ← parsePatternF fuel toks
    if peekKind toks = .Comma then do
      let (ps, toks') ← patCommaLoopF fuel (toks.drop 1)
      .ok (p :: ps, toks')
    else .ok ([p], toks)

end

/-- `parse` from `parser.ts`: a full expression, then the EOF sentinel. -/
def parse (fuel : Nat) (toks : List Tok) : Except String Expr := do
  let (e, toks) ← parseExprF fuel 0 toks
  let (_, _) ← expectT .EOF toks
  .ok e

/-- `lex` + `parse` on a source string, with fuel. -/
def lexParse (fuel : Nat) (s : String) : Except String Expr :=
  match lex s.toList with
  | .error e => .error e
  | .ok toks => parse fuel toks

/-- Runtime values, from `values.ts`.  The TS `let rec` back-patch
(`evaluator.ts`, Let case) materializes a cyclic environment: the patched
closure's captured map contains the closure itself.  Cyclic data has no
direct counterpart in an inductive type, so the patched closure is modelled
by the extra `RecClosure` constructor, which re-installs the self-binding
into its captured environment each time it is applied — the late-binding
realization of the same fix-point (the spec's §5 names both realizations as
equivalent).  A `BuiltinFn` carries only its name, declared arity and
accumulated arguments; the underlying callable is dispatched by name in
`callBuiltinF` (names are unique in the prelude, so this is observationally
the TS representation). -/
inductive Value where
  | Int (value : Int)
  | Float (value : Rat)
  | String (value : String)
  | Bool (value : Bool)
  | Unit
  | List (elements : List Value)
  | Tuple (elements : List Value)
  | Record (fields : List (String × Value))
  | Tag (tag : String) (args : List Value)
  | Closure (param : String) (body : Expr) (env : List (String × Value))
  | RecClosure (name param : String) (body : Expr) (env : List (String × Value))
  | BuiltinFn (name : String) (arity : Nat) (applied : List Value)

abbrev Env := List (String × Value)

/-- `Map.get`: first match in our prepend-on-set association lists. -/
def alookup {α : Type} : List (String × α) → String → Option α
  | [], _ => none
  | (k, v) :: rest, name => if k = name then some v else alookup rest name

/-- `Map.set` where iteration order matters (record fields): replace in
place if present, else append — exactly the JS `Map` discipline. -/
def alistSet {α : Type} : List (String × α) → String → α → List (String × α)
  | [], k, v => [(k, v)]
  | (k', v') :: rest, k, v =>
    if k' = k then (k, v) :: rest else (k', v') :: alistSet rest k v

/-- The `kind` discriminant string of a value, for error messages. -/
def valueKindName : Value → String
  | .Int _ => "Int"
  | .Float _ => "Float"
  | .String _ => "String"
  | .Bool _ => "Bool"
  | .Unit => "Unit"
  | .List _ => "List"
  | .Tuple _ => "Tuple"
  | .Record _ => "Record"
  | .Tag _ _ => "Tag"
  | .Closure _ _ _ => "Closure"
  | .RecClosure _ _ _ _ => "Closure"
  | .BuiltinFn _ _ _ => "BuiltinFn"

/-- Result of an evaluator call: a normal value, a propagating
`EarlyReturn` control transfer (the `throw new EarlyReturn(...)` /
`instanceof EarlyReturn` discipline of `evaluator.ts`), a runtime error
(any other thrown `Error`), or fuel exhaustion (an artifact of the
embedding, never a source-level outcome). -/
inductive EvalRes (α : Type) where
  | ok (a : α)
  | early (v : Value)
  | err (msg : String)
  | fuelOut

/-- Sequencing of evaluator outcomes: exceptions propagate. -/
def EvalRes.bind {α β : Type} : EvalRes α → (α → EvalRes β) → EvalRes β
  | .ok a, f => f a
  | .early v, _ => .early v
  | .err m, _ => .err m
  | .fuelOut, _ => .fuelOut

instance : Monad EvalRes where
  pure := .ok
  bind := EvalRes.bind

/-- Outcome of `matchPattern`: the TS function returns a bindings map or
`null`; `fuelOut` is the embedding artifact. -/
inductive MatchRes where
  | fuelOut
  | noMatch
  | matched (bindings : List (String × Value))

mutual

/-- `matchPattern` from `evaluator.ts`, fuelled for the nested recursion
into sub-pattern lists.  Binding maps are kept latest-set-first, so that
`bindings ++ env` with first-match lookup reproduces `Map.set` overwrite
semantics. -/
def matchPatternF : Nat → Pattern → Value → MatchRes
  | 0, _, _ => .fuelOut
  | _ + 1, .IntPat n, v =>
    (match v with
    | .Int m => if m = n then .matched [] else .noMatch
    | _ => .noMatch)
  | _ + 1, .FloatPat q, v =>
    (match v with
    | .Float q2 => if q2 = q then .matched [] else .noMatch
    | _ => .noMatch)
  | _ + 1, .StringPat str, v =>
    (match v with
    | .String s2 => if s2 = str then .matched [] else .noMatch
    | _ => .noMatch)
  | _ + 1, .BoolPat b, v =>
    (match v with
    | .Bool b2 => if b2 = b then .matched [] else .noMatch
    | _ => .noMatch)
  | _ + 1, .WildcardPat, _ => .matched []
  | _ + 1, .IdentPat name, v => .matched [(name, v)]
  | fuel + 1, .TagPat tag args, v =>
    (match v with
    | .Tag vtag vargs =>
      if vtag = tag then
        if vargs.length = args.length then matchListF fuel args vargs
        else .noMatch
      else .noMatch
    | _ => .noMatch)
  | fuel + 1, .TuplePat els, v =>
    (match v with
    | .Tuple vels =>
      if vels.length = els.length then matchListF fuel els vels
      else .noMatch
    | _ => .noMatch)
  | fuel + 1, .RecordPat fields, v =>
    (match v with
    | .Record vfields => matchRecordF fuel fields vfields
    | _ => .noMatch)

/-- The pairwise sub-pattern loop shared by `TagPat` and `TuplePat` in
`matchPattern` (lengths already checked). -/
def matchListF : Nat → List Pattern → List Value → MatchRes
  | 0, _, _ => .fuelOut
  | _ + 1, [], _ => .matched []
  | _ + 1, _ :: _, [] => .matched []
  | fuel + 1, p :: ps, v :: vs =>
    match matchPatternF fuel p v with
    | .fuelOut => .fuelOut
    | .noMatch => .noMatch
    | .matched b =>
      match matchListF fuel ps vs with
      | .fuelOut => .fuelOut
      | .noMatch => .noMatch
      | .matched bs => .matched (bs ++ b)

/-- The per-field loop of `matchPattern`'s `RecordPat` case. -/
def matchRecordF : Nat → List (String × Pattern) → List (String × Value) → MatchRes
  | 0, _, _ => .fuelOut
  | _ + 1, [], _ => .matched []
  | fuel + 1, (name, p) :: fs, vfields =>
    match alookup vfields name with
    | none => .noMatch
    | some fv =>
      match matchPatternF fuel p fv with
      | .fuelOut => .fuelOut
      | .noMatch => .noMatch
      | .matched b =>
        match matchRecordF fuel fs vfields with
        | .fuelOut => .fuelOut
        | .noMatch => .noMatch
        | .matched bs => .matched (bs ++ b)

end

/-- The integer-integer block of `evalBinOp` (`evaluator.ts`); `none` means
the JS `switch` fell through to the next block.  `/` is `Math.trunc` of the
float quotient, i.e. truncation toward zero, and `%` is the JS remainder
(sign of the dividend): `Int.tdiv` / `Int.tmod`.  (For division by zero JS
produces an Infinity/NaN "integer"; the model returns 0 there — no claim
touches it.) -/
def intIntOp (op : String) (a b : Int) : Option Value :=
  match op with
  | "+" => some (.Int (a + b))
  | "-" => some (.Int (a - b))
  | "*" => some (.Int (a * b))
  | "/" => some (.Int (a.tdiv b))
  | "%" => some (.Int (a.tmod b))
  | "==" => some (.Bool (a = b))
  | "!=" => some (.Bool (a ≠ b))
  | "<" => some (.Bool (a < b))
  | ">" => some (.Bool (a > b))
  | "<=" => some (.Bool (a ≤ b))
  | ">=" => some (.Bool (a ≥ b))
  | _ => none

/-- The float-float block of `evalBinOp` (note: no `%`, `<=`, `>=` — those
fall through to the mixed block, which handles the comparisons but not `%`). -/
def floatFloatOp (op : String) (a b : Rat) : Option Value :=
  match op with
  | "+" => some (.Float (a + b))
  | "-" => some (.Float (a - b))
  | "*" => some (.Float (a * b))
  | "/" => some (.Float (a / b))
  | "==" => some (.Bool (a = b))
  | "!=" => some (.Bool (a ≠ b))
  | "<" => some (.Bool (a < b))
  | ">" => some (.Bool (a > b))
  | _ => none

/-- The mixed numeric block of `evalBinOp`: both operands numeric, computed
on raw JS numbers and wrapped as `Float` for the four arithmetic operators;
`%`, `==`, `!=` are absent and fall through to the final `throw`. -/
def mixedOp (op : String) (a b : Rat) : Option Value :=
  match op with
  | "+" => some (.Float (a + b))
  | "-" => some (.Float (a - b))
  | "*" => some (.Float (a * b))
  | "/" => some (.Float (a / b))
  | "<" => some (.Bool (a < b))
  | ">" => some (.Bool (a > b))
  | "<=" => some (.Bool (a ≤ b))
  | ">=" => some (.Bool (a ≥ b))
  | _ => none

/-- The numeric payload of an `Int` or `Float` value, as the JS number. -/
def numVal : Value → Option Rat
  | .Int n => some (n : Rat)
  | .Float q => some q
  | _ => none

/-- `evalBinOp` from `evaluator.ts`: a chain of guarded blocks; a
non-matching `switch` falls through to the next block, and the end of the
chain throws. -/
def evalBinOp (op : String) (l r : Value) : EvalRes Value :=
  let fallThrough : EvalRes Value :=
    .err ("Cannot apply operator " ++ op ++ " to " ++ valueKindName l ++ " and " ++ valueKindName r)
  let step6 : EvalRes Value :=
    match l, r with
    | .Bool a, .Bool b =>
      match op with
      | "&&" => .ok (.Bool (a && b))
      | "||" => .ok (.Bool (a || b))
      | "==" => .ok (.Bool (a = b))
      | "!=" => .ok (.Bool (a ≠ b))
      | _ => fallThrough
    | _, _ => fallThrough
  let step5 : EvalRes Value :=
    match l, r with
    | .String a, .String b =>
      match op with
      | "==" => .ok (.Bool (a = b))
      | "!=" => .ok (.Bool (a ≠ b))
      | _ => step6
    | _, _ => step6
  let step4 : EvalRes Value :=
    match l, r with
    | .String a, .String b => if op = "++" then .ok (.String (a ++ b)) else step5
    | _, _ => step5
  let step3 : EvalRes Value :=
    match numVal l, numVal r with
    | some a, some b =>
      match mixedOp op a b with
      | some v => .ok v
      | none => step4
    | _, _ => step4
  let step2 : EvalRes Value :=
    match l, r with
    | .Float a, .Float b =>
      match floatFloatOp op a b with
      | some v => .ok v
      | none => step3
    | _, _ => step3
  match l, r with
  | .Int a, .Int b =>
    match intIntOp op a b with
    | some v => .ok v
    | none => step2
  | _, _ => step2

/-- `evalUnaryOp` from `evaluator.ts`. -/
def evalUnaryOp (op : String) (operand : Value) : EvalRes Value :=
  if op = "!" then
    match operand with
    | .Bool b => .ok (.Bool (!b))
    | _ => .err ("Cannot apply unary " ++ op ++ " to " ++ valueKindName operand)
  else if op = "-" then
    match operand with
    | .Int n => .ok (.Int (-n))
    | .Float q => .ok (.Float (-q))
    | _ => .err ("Cannot apply unary " ++ op ++ " to " ++ valueKindName operand)
  else .err ("Cannot apply unary " ++ op ++ " to " ++ valueKindName operand)

/-- `prettyPrint` from `values.ts`, fuelled for the nested recursion.
JS float rendering is modelled by the rational's `toString`. -/
def prettyPrintF : Nat → Value → String
  | 0, _ => ""
  | fuel + 1, v =>
    match v with
    | .Int n => toString n
    | .Float q => toString q
    | .String s => "\"" ++ s ++ "\""
    | .Bool b => if b then "true" else "false"
    | .Unit => "()"
    | .List els => "[" ++ String.intercalate ", " (els.map (prettyPrintF fuel)) ++ "]"
    | .Tuple els => "(" ++ String.intercalate ", " (els.map (prettyPrintF fuel)) ++ ")"
    | .Record fields =>
      "\x7b " ++ String.intercalate ", "
        (fields.map (fun f => f.1 ++ ": " ++ prettyPrintF fuel f.2)) ++ " \x7d"
    | .Tag tag args =>
      if args.isEmpty then tag
      else tag ++ "(" ++ String.intercalate ", " (args.map (prettyPrintF fuel)) ++ ")"
    | .Closure _ _ _ => "<fn>"
    | .RecClosure _ _ _ _ => "<fn>"
    | .BuiltinFn name _ _ => "<builtin:" ++ name ++ ">"

/-- The unwrap discipline shared by `evalExpr`'s `Try` case and the
pipe-into-`?` case of `evaluator.ts`: `Ok(v)` with exactly one argument
unwraps, any `Err(...)` raises the early-return transfer carrying the tag,
anything else is a runtime error. -/
def tryUnwrap : Value → EvalRes Value
  | .Tag tag [x] =>
    if tag = "Ok" then .ok x
    else if tag = "Err" then .early (.Tag tag [x])
    else .err "? operator requires Ok(...) or Err(...)"
  | .Tag tag args =>
    if tag = "Err" then .early (.Tag tag args)
    else .err "? operator requires Ok(...) or Err(...)"
  | _ => .err "? operator requires Ok(...) or Err(...)"

/-- Classification of the protected expression's outcome in `evalExpr`'s
`Catch` case. -/
inductive CatchClass where
  | unwrapped (x : Value)
  | errPayload (a : Value)
  | passThrough

/-- The returned-value branch of the `Catch` case: `Ok(v)` with one
argument unwraps, `Err(...)` with at least one argument selects the
fallback with its first payload, anything else is passed through. -/
def catchClass : Value → CatchClass
  | .Tag tag [x] =>
    if tag = "Ok" then .unwrapped x
    else if tag = "Err" then .errPayload x
    else .passThrough
  | .Tag tag (x :: _) => if tag = "Err" then .errPayload x else .passThrough
  | _ => .passThrough

/-- The caught-`EarlyReturn` branch of the `Catch` case: only
`Err(...)` with at least one argument selects the fallback. -/
def catchClassEarly : Value → CatchClass
  | .Tag tag (x :: _) => if tag = "Err" then .errPayload x else .passThrough
  | _ => .passThrough

mutual

/-- `evalExpr` from `evaluator.ts`, fuelled.  The expression constructor is
part of the top-level pattern so that the unfolding equations only fire on
constructor-shaped expressions. -/
def evalExprF : Nat → Expr → Env → EvalRes Value
  | 0, _, _ => .fuelOut
  | _ + 1, .IntLit n, _ => .ok (.Int n)
  | _ + 1, .FloatLit q, _ => .ok (.Float q)
  | _ + 1, .StringLit str, _ => .ok (.String str)
  | _ + 1, .BoolLit b, _ => .ok (.Bool b)
  | _ + 1, .UnitLit, _ => .ok .Unit
  | _ + 1, .Ident name, env =>
    (match alookup env name with
    | some v => .ok v
    | none => .err ("Undefined variable: " ++ name))
  | fuel + 1, .BinOp op l r, env => do
    let lv ← evalExprF fuel l env
    let rv ← evalExprF fuel r env
    evalBinOp op lv rv
  | fuel + 1, .UnaryOp op inner, env => do
    let v ← evalExprF fuel inner env
    evalUnaryOp op v
  | fuel + 1, .Let name value body recFlag, env => do
    let v ← evalExprF fuel value env
    match recFlag, v with
    | true, .Closure p b cenv =>
      evalExprF fuel body ((name, .RecClosure name p b cenv) :: env)
    | _, _ => evalExprF fuel body ((name, v) :: env)
  | _ + 1, .Fn param body, env => .ok (.Closure param body env)
  | fuel + 1, .Call fnE argE, env => do
    let fnV ← evalExprF fuel fnE env
    let argV ← evalExprF fuel argE env
    applyFnF fuel fnV argV
  | fuel + 1, .Match subject cases, env => do
    let subjV ← evalExprF fuel subject env
    evalMatchF fuel cases subjV env
  | fuel + 1, .Try inner, env => do
    let v ← evalExprF fuel inner env
    tryUnwrap v
  | fuel + 1, .Catch inner errorName fallback, env =>
    (match evalExprF fuel inner env with
    | .ok v =>
      match catchClass v with
      | .unwrapped x => .ok x
      | .errPayload a => evalExprF fuel fallback ((errorName, a) :: env)
      | .passThrough => .ok v
    | .early v =>
      match catchClassEarly v with
      | .unwrapped x => .ok x
      | .errPayload a => evalExprF fuel fallback ((errorName, a) :: env)
      | .passThrough => .ok v
    | .err m => .err m
    | .fuelOut => .fuelOut)
  | fuel + 1, .Pipe l r, env =>
    (match r with
    | .Catch _ errorName fallback =>
      evalExprF fuel (.Catch l errorName fallback) env
    | .Try innerFn => do
      let lv ← evalExprF fuel l env
      let fnV ← evalExprF fuel innerFn env
      let result ← applyFnF fuel fnV lv
      tryUnwrap result
    | _ => do
      let lv ← evalExprF fuel l env
      let rv ← evalExprF fuel r env
      applyFnF fuel rv lv)
  | fuel + 1, .List els, env => do
    let vs ← evalListF fuel els env
    .ok (.List vs)
  | fuel + 1, .Tuple els, env => do
    let vs ← evalListF fuel els env
    .ok (.Tuple vs)
  | fuel + 1, .Record fields, env => do
    let fs ← evalRecordF fuel fields env
    .ok (.Record fs)
  | fuel + 1, .FieldAccess inner field, env => do
    let v ← evalExprF fuel inner env
    match v with
    | .Record fields =>
      (match alookup fields field with
      | some fv => .ok fv
      | none => .err ("No field " ++ field))
    | _ => .err "Field access on non-record"
  | fuel + 1, .Tag tag args, env => do
    let vs ← evalListF fuel args env
    .ok (.Tag tag vs)
  | fuel + 1, .If cond thenE elseE, env => do
    let c ← evalExprF fuel cond env
    match c with
    | .Bool true => evalExprF fuel thenE env
    | .Bool false => evalExprF fuel elseE env
    | _ => .err "If condition must be Bool"

/-- The `expr.elements.map(...)` traversals in `evalExpr` (lists, tuples,
tag arguments); a thrown exception aborts the traversal. -/
def evalListF : Nat → List Expr → Env → EvalRes (List Value)
  | 0, _, _ => .fuelOut
  | _ + 1, [], _ => .ok []
  | fuel + 1, e :: es, env => do
    let v ← evalExprF fuel e env
    let vs ← evalListF fuel es env
    .ok (v :: vs)

/-- The record-field evaluation loop in `evalExpr` (`Map.set` in insertion
order). -/
def evalRecordF : Nat → List (String × Expr) → Env → EvalRes (List (String × Value))
  | 0, _, _ => .fuelOut
  | _ + 1, [], _ => .ok []
  | fuel + 1, (name, e) :: fs, env => do
    let v ← evalExprF fuel e env
    let rest ← evalRecordF fuel fs env
    .ok (alistSet rest name v)

/-- The case loop in `evalExpr`'s `Match` handler. -/
def evalMatchF : Nat → List (Pattern × Expr) → Value → Env → EvalRes Value
  | 0, _, _, _ => .fuelOut
  | _ + 1, [], _, _ => .err "No matching pattern"
  | fuel + 1, (p, body) :: cases, subjV, env =>
    match matchPatternF (fuel + 1) p subjV with
    | .fuelOut => .fuelOut
    | .noMatch => evalMatchF fuel cases subjV env
    | .matched bindings => evalExprF fuel body (bindings ++ env)

/-- `applyFn` from `evaluator.ts`: closure application, auto-currying of
built-ins, error on anything else. -/
def applyFnF : Nat → Value → Value → EvalRes Value
  | 0, _, _ => .fuelOut
  | fuel + 1, .Closure param body cenv, arg =>
    evalExprF fuel body ((param, arg) :: cenv)
  | fuel + 1, .RecClosure name param body cenv, arg =>
    evalExprF fuel body ((param, arg) :: (name, .RecClosure name param body cenv) :: cenv)
  | fuel + 1, .BuiltinFn name arity applied, arg =>
    let applied' := applied ++ [arg]
    if applied'.length ≥ arity then callBuiltinF fuel name applied'
    else .ok (.BuiltinFn name arity applied')
  | _ + 1, fn, _ => .err ("Cannot call " ++ valueKindName fn)

/-- The built-in callables from `prelude.ts`, dispatched by name at
saturation. -/
def callBuiltinF : Nat → String → List Value → EvalRes Value
  | 0, _, _ => .fuelOut
  | fuel + 1, name, args =>
    if name = "map" then
      match args with
      | [f, l] =>
        (match l with
        | .List els => do
          let vs ← mapAppF fuel f els
          .ok (.List vs)
        | _ => .err ("Expected List, got " ++ valueKindName l))
      | _ => .err "Unknown builtin"
    else if name = "filter" then
      match args with
      | [f, l] =>
        (match l with
        | .List els => do
          let vs ← filterAppF fuel f els
          .ok (.List vs)
        | _ => .err ("Expected List, got " ++ valueKindName l))
      | _ => .err "Unknown builtin"
    else if name = "fold" then
      match args with
      | [init, f, l] =>
        (match l with
        | .List els => foldAppF fuel f init els
        | _ => .err ("Expected List, got " ++ valueKindName l))
      | _ => .err "Unknown builtin"
    else if name = "length" then
      match args with
      | [v] =>
        (match v with
        | .List els => .ok (.Int els.length)
        | .String str => .ok (.Int str.length)
        | _ => .err "length expects List or String")
      | _ => .err "Unknown builtin"
    else if name = "head" then
      match args with
      | [l] =>
        (match l with
        | .List [] => .ok (.Tag "Err" [.String "empty list"])
        | .List (x :: _) => .ok (.Tag "Ok" [x])
        | _ => .err ("Expected List, got " ++ valueKindName l))
      | _ => .err "Unknown builtin"
    else if name = "tail" then
      match args with
      | [l] =>
        (match l with
        | .List [] => .ok (.Tag "Err" [.String "empty list"])
        | .List (_ :: rest) => .ok (.Tag "Ok" [.List rest])
        | _ => .err ("Expected List, got " ++ valueKindName l))
      | _ => .err "Unknown builtin"
    else if name = "to_string" then
      match args with
      | [v] =>
        (match v with
        | .Int n => .ok (.String (toString n))
        | .Float q => .ok (.String (toString q))
        | .Bool b => .ok (.String (if b then "true" else "false"))
        | .String str => .ok (.String str)
        | _ => .ok (.String (prettyPrintF (fuel + 1) v)))
      | _ => .err "Unknown builtin"
    else if name = "print" then
      match args with
      | [_] => .ok .Unit
      | _ => .err "Unknown builtin"
    else if name = "concat" then
      match args with
      | [a, b] =>
        (match a, b with
        | .String x, .String y => .ok (.String (x ++ y))
        | _, _ => .err "concat expects String")
      | _ => .err "Unknown builtin"
    else if name = "each" then
      match args with
      | [f, l] =>
        (match l with
        | .List els => do
          let _ ← mapAppF fuel f els
          .ok .Unit
        | _ => .err ("Expected List, got " ++ valueKindName l))
      | _ => .err "Unknown builtin"
    else .err ("Unknown builtin: " ++ name)

/-- `list.elements.map((el) => applyFn(f, el))` (used by `map`, and by
`each` which discards the results). -/
def mapAppF : Nat → Value → List Value → EvalRes (List Value)
  | 0, _, _ => .fuelOut
  | _ + 1, _, [] => .ok []
  | fuel + 1, f, x :: xs => do
    let v ← applyFnF fuel f x
    let vs ← mapAppF fuel f xs
    .ok (v :: vs)

/-- The `filter` traversal from `prelude.ts` (`pred` must yield a boolean). -/
def filterAppF : Nat → Value → List Value → EvalRes (List Value)
  | 0, _, _ => .fuelOut
  | _ + 1, _, [] => .ok []
  | fuel + 1, f, x :: xs => do
    let v ← applyFnF fuel f x
    match v with
    | .Bool b => do
      let vs ← filterAppF fuel f xs
      .ok (if b then x :: vs else vs)
    | _ => .err ("Expected Bool, got " ++ valueKindName v)

/-- The `fold` left-reduction from `prelude.ts`. -/
def foldAppF : Nat → Value → Value → List Value → EvalRes Value
  | 0, _, _, _ => .fuelOut
  | _ + 1, _, acc, [] => .ok acc
  | fuel + 1, f, acc, x :: xs => do
    let g ← applyFnF fuel f acc
    let acc' ← applyFnF fuel g x
    foldAppF fuel f acc' xs

end

/-- `evaluate` from `evaluator.ts`: run `evalExpr` and turn an escaping
`EarlyReturn` into the program's result value. -/
def evaluateF (fuel : Nat) (e : Expr) (env : Env) : EvalRes Value :=
  match evalExprF fuel e env with
  | .early v => .ok v
  | r => r

/-- `createPrelude` from `prelude.ts`: the initial value environment. -/
def createPrelude : Env :=
  [("map", .BuiltinFn "map" 2 []),
   ("filter", .BuiltinFn "filter" 2 []),
   ("fold", .BuiltinFn "fold" 3 []),
   ("length", .BuiltinFn "length" 1 []),
   ("head", .BuiltinFn "head" 1 []),
   ("tail", .BuiltinFn "tail" 1 []),
   ("to_string", .BuiltinFn "to_string" 1 []),
   ("print", .BuiltinFn "print" 1 []),
   ("concat", .BuiltinFn "concat" 2 []),
   ("each", .BuiltinFn "each" 2 [])]

/-- The source text of spec scenario 4 (claim C1). -/
def srcCatchPipeline : String :=
  "let parse = fn(s) -> match s \x7b \x221\x22 -> Ok(1), _ -> Err(\x22bad\x22) \x7d in \x22bad\x22 |> parse? |> fn n -> n * 2 |> catch e -> 0"

/-- The source text of spec scenario 1 (claims C5, C8). -/
def srcFib : String :=
  "let rec fib = fn(n) -> match n <= 1 \x7b true -> n, false -> fib(n-1) + fib(n-2) \x7d in fib(10)"

/-- The program of spec scenario 4 (claim C1), as parsed. -/
def progC1 : Expr :=
  .Let "parse"
    (.Fn "s" (.Match (.Ident "s")
      [(.StringPat "1", .Tag "Ok" [.IntLit 1]),
       (.WildcardPat, .Tag "Err" [.StringLit "bad"])]))
    (.Pipe
      (.Pipe
        (.Pipe (.StringLit "bad") (.Try (.Ident "parse")))
        (.Fn "n" (.BinOp "*" (.Ident "n") (.IntLit 2))))
      (.Catch .UnitLit "e" (.IntLit 0)))
    false

/-- The desugared body of the `fib` lambda (claim C5's program). -/
abbrev fibBody : Expr :=
  .Match (.BinOp "<=" (.Ident "n") (.IntLit 1))
    [(.BoolPat true, .Ident "n"),
     (.BoolPat false,
      .BinOp "+" (.Call (.Ident "fib") (.BinOp "-" (.Ident "n") (.IntLit 1)))
        (.Call (.Ident "fib") (.BinOp "-" (.Ident "n") (.IntLit 2))))]

/-- The back-patched recursive closure for `fib` over an arbitrary outer
environment: this is the value the recursive-binding fixup of `evalExpr`'s
`Let` case installs for `fib`. -/
abbrev fibClo (env : Env) : Value := .RecClosure "fib" "n" fibBody env

def progFib : Expr :=
  .Let "fib" (.Fn "n" fibBody) (.Call (.Ident "fib") (.IntLit 10)) true

/-- Types, from `types.ts`. -/
inductive Ty where
  | TCon (name : String)
  | TVar (id : Nat)
  | TFn (param ret : Ty)
  | TList (element : Ty)
  | TTuple (elements : List Ty)
  | TRecord (fields : List (String × Ty)) (rest : Option Ty)
  | TResult (ok : Ty)
  | TTag (tag : String) (args : List Ty)

/-- A substitution (`unify.ts`): `Map<number, Type>`, modelled as an
association list with prepend-on-set and first-match lookup.  The source
mutates the map in place and also returns it; every caller uses the
returned map, so the functional reading agrees on all results the claims
observe. -/
abbrev Subst := List (Nat × Ty)

def nlookup {α : Type} : List (Nat × α) → Nat → Option α
  | [], _ => none
  | (k, v) :: rest, key => if k = key then some v else nlookup rest key

/-- The `kind` discriminant string of a type, for error messages. -/
def tyKindName : Ty → String
  | .TCon _ => "TCon"
  | .TVar _ => "TVar"
  | .TFn _ _ => "TFn"
  | .TList _ => "TList"
  | .TTuple _ => "TTuple"
  | .TRecord _ _ => "TRecord"
  | .TResult _ => "TResult"
  | .TTag _ _ => "TTag"

mutual

/-- `applySubst` from `unify.ts`, fuelled (`none` = fuel ran out): type
variables are resolved transitively; all other shapes are rewritten
recursively.  On a cyclic substitution the source recurses forever; the
fuel makes that visible as `none`. -/
def applySubstF : Nat → Subst → Ty → Option Ty
  | 0, _, _ => none
  | fuel + 1, subst, .TVar id =>
    (match nlookup subst id with
    | some t2 => applySubstF fuel subst t2
    | none => some (.TVar id))
  | _ + 1, _, .TCon name => some (.TCon name)
  | fuel + 1, subst, .TFn p r => do
    let p2 ← applySubstF fuel subst p
    let r2 ← applySubstF fuel subst r
    some (.TFn p2 r2)
  | fuel + 1, subst, .TList e => do
    let e2 ← applySubstF fuel subst e
    some (.TList e2)
  | fuel + 1, subst, .TTuple es => do
    let es2 ← applySubstListF fuel subst es
    some (.TTuple es2)
  | fuel + 1, subst, .TRecord fs rest => do
    let fs2 ← applySubstFieldsF fuel subst fs
    match rest with
    | some r => do
      let r2 ← applySubstF fuel subst r
      some (.TRecord fs2 (some r2))
    | none => some (.TRecord fs2 none)
  | fuel + 1, subst, .TResult o => do
    let o2 ← applySubstF fuel subst o
    some (.TResult o2)
  | fuel + 1, subst, .TTag tag args => do
    let args2 ← applySubstListF fuel subst args
    some (.TTag tag args2)

def applySubstListF : Nat → Subst → List Ty → Option (List Ty)
  | 0, _, _ => none
  | _ + 1, _, [] => some []
  | fuel + 1, subst, t :: ts => do
    let t2 ← applySubstF fuel subst t
    let ts2 ← applySubstListF fuel subst ts
    some (t2 :: ts2)

def applySubstFieldsF : Nat → Subst → List (String × Ty) → Option (List (String × Ty))
  | 0, _, _ => none
  | _ + 1, _, [] => some []
  | fuel + 1, subst, (k, t) :: fs => do
    let t2 ← applySubstF fuel subst t
    let fs2 ← applySubstFieldsF fuel subst fs
    some ((k, t2) :: fs2)

end

mutual

/-- `occursIn` from `unify.ts`: applies the substitution, then walks
function, list, tuple, result and record-field positions.  Tag-type
arguments and the record row `rest` fall through to the final
`return false` — the walk does not cover them. -/
def occursInF : Nat → Nat → Ty → Subst → Option Bool
  | 0, _, _, _ => none
  | fuel + 1, id, t, subst =>
    match applySubstF (fuel + 1) subst t with
    | none => none
    | some t2 =>
      match t2 with
      | .TVar vid => some (vid = id)
      | .TFn p r =>
        (match occursInF fuel id p subst with
        | none => none
        | some true => some true
        | some false => occursInF fuel id r subst)
      | .TList e => occursInF fuel id e subst
      | .TTuple es => occursAnyF fuel id es subst
      | .TResult o => occursInF fuel id o subst
      | .TRecord fs _ => occursAnyF fuel id (fs.map Prod.snd) subst
      | _ => some false

/-- The short-circuiting `Array.some` traversals in `occursIn`. -/
def occursAnyF : Nat → Nat → List Ty → Subst → Option Bool
  | 0, _, _, _ => none
  | _ + 1, _, [], _ => some false
  | fuel + 1, id, t :: ts, subst =>
    match occursInF fuel id t subst with
    | none => none
    | some true => some true
    | some false => occursAnyF fuel id ts subst

end

/-- Result of `unify`: an extended substitution, a thrown `TypeError`
message, or fuel exhaustion. -/
inductive URes where
  | ok (subst : Subst)
  | err (msg : String)
  | fuelOut

/-- `bindVar` from `unify.ts`. -/
def bindVarF (fuel : Nat) (id : Nat) (t : Ty) (subst : Subst) : URes :=
  match t with
  | .TVar vid =>
    if vid = id then .ok subst
    else
      match occursInF fuel id t subst with
      | none => .fuelOut
      | some true => .err "infinite type"
      | some false => .ok ((id, t) :: subst)
  | _ =>
    match occursInF fuel id t subst with
    | none => .fuelOut
    | some true => .err "infinite type"
    | some false => .ok ((id, t) :: subst)

mutual

/-- `unify` from `unify.ts`: apply the substitution to both sides, bind
variables (with the occurs check), then dispatch on shape.  Note there is
no `TTag`/`TTag` case: two tag types fall through to the final `throw`. -/
def unifyF : Nat → Ty → Ty → Subst → URes
  | 0, _, _, _ => .fuelOut
  | fuel + 1, t1, t2, subst =>
    match applySubstF fuel subst t1, applySubstF fuel subst t2 with
    | some t1', some t2' =>
      match t1', t2' with
      | .TVar id, _ => bindVarF fuel id t2' subst
      | _, .TVar id => bindVarF fuel id t1' subst
      | .TCon a, .TCon b =>
        if a = b then .ok subst else .err ("Cannot unify " ++ a ++ " with " ++ b)
      | .TFn p1 r1, .TFn p2 r2 =>
        (match unifyF fuel p1 p2 subst with
        | .ok s1 => unifyF fuel r1 r2 s1
        | r => r)
      | .TList e1, .TList e2 => unifyF fuel e1 e2 subst
      | .TTuple es1, .TTuple es2 =>
        if es1.length = es2.length then unifyListF fuel es1 es2 subst
        else .err "Tuple length mismatch"
      | .TResult o1, .TResult o2 => unifyF fuel o1 o2 subst
      | .TRecord f1 _, .TRecord f2 _ => unifyRecordF fuel f1 f2 subst
      | a, b => .err ("Cannot unify " ++ tyKindName a ++ " with " ++ tyKindName b)
    | _, _ => .fuelOut

/-- The pairwise loop of `unify`'s tuple case (lengths already equal). -/
def unifyListF : Nat → List Ty → List Ty → Subst → URes
  | 0, _, _, _ => .fuelOut
  | _ + 1, [], _, subst => .ok subst
  | _ + 1, _ :: _, [], subst => .ok subst
  | fuel + 1, a :: as2, b :: bs, subst =>
    match unifyF fuel a b subst with
    | .ok s1 => unifyListF fuel as2 bs s1
    | r => r

/-- The record case of `unify`: for each field of the left record that also
occurs in the right one, unify the two field types; fields present on only
one side are ignored. -/
def unifyRecordF : Nat → List (String × Ty) → List (String × Ty) → Subst → URes
  | 0, _, _, _ => .fuelOut
  | _ + 1, [], _, subst => .ok subst
  | fuel + 1, (k, v) :: f1, f2, subst =>
    match alookup f2 k with
    | some other =>
      (match unifyF fuel v other subst with
      | .ok s1 => unifyRecordF fuel f1 f2 s1
      | r => r)
    | none => unifyRecordF fuel f1 f2 subst

end

/-- `v` occurs somewhere in `t` — any position at all, including tag-type
arguments and the record row `rest` (the spec's notion of "mentions"). -/
inductive Mentions (v : Nat) : Ty → Prop where
  | var : Mentions v (.TVar v)
  | fnParam {p r : Ty} : Mentions v p → Mentions v (.TFn p r)
  | fnRet {p r : Ty} : Mentions v r → Mentions v (.TFn p r)
  | list {e : Ty} : Mentions v e → Mentions v (.TList e)
  | tupleEl {es : List Ty} {e : Ty} : e ∈ es → Mentions v e → Mentions v (.TTuple es)
  | result {o : Ty} : Mentions v o → Mentions v (.TResult o)
  | recordField {fs : List (String × Ty)} {rest : Option Ty} {k : String} {t : Ty} :
      (k, t) ∈ fs → Mentions v t → Mentions v (.TRecord fs rest)
  | recordRest {fs : List (String × Ty)} {r : Ty} :
      Mentions v r → Mentions v (.TRecord fs (some r))
  | tagArg {tag : String} {args : List Ty} {e : Ty} :
      e ∈ args → Mentions v e → Mentions v (.TTag tag args)

/-- `v` occurs in `t` in a position the `occursIn` walk covers: function,
list, tuple, result and record-field positions — not tag arguments, not
the record `rest`. -/
inductive MentionsCov (v : Nat) : Ty → Prop where
  | var : MentionsCov v (.TVar v)
  | fnParam {p r : Ty} : MentionsCov v p → MentionsCov v (.TFn p r)
  | fnRet {p r : Ty} : MentionsCov v r → MentionsCov v (.TFn p r)
  | list {e : Ty} : MentionsCov v e → MentionsCov v (.TList e)
  | tupleEl {es : List Ty} {e : Ty} : e ∈ es → MentionsCov v e → MentionsCov v (.TTuple es)
  | result {o : Ty} : MentionsCov v o → MentionsCov v (.TResult o)
  | recordField {fs : List (String × Ty)} {rest : Option Ty} {k : String} {t : Ty} :
      (k, t) ∈ fs → MentionsCov v t → MentionsCov v (.TRecord fs rest)

/-- A type scheme (`typechecker.ts`): quantified variable ids (in discovery
order) plus a type. -/
structure Scheme where
  vars : List Nat
  type : Ty

abbrev TypeEnv := List (String × Scheme)

/-- `mono` from `typechecker.ts`. -/
def mono (t : Ty) : Scheme := ⟨[], t⟩

/-- Insertion-ordered set insert (JS `Set.add`). -/
def ninsert (a : List Nat) (x : Nat) : List Nat :=
  if a.contains x then a else a ++ [x]

/-- Insertion-ordered set union (membership first-come-first-kept). -/
def nunion (a b : List Nat) : List Nat := b.foldl ninsert a

mutual

/-- `freeVars` from `typechecker.ts`, fuelled, as an insertion-ordered
duplicate-free list. -/
def freeVarsF : Nat → Ty → Option (List Nat)
  | 0, _ => none
  | _ + 1, .TVar id => some [id]
  | _ + 1, .TCon _ => some []
  | fuel + 1, .TFn p r => do
    let a ← freeVarsF fuel p
    let b ← freeVarsF fuel r
    some (nunion a b)
  | fuel + 1, .TList e => freeVarsF fuel e
  | fuel + 1, .TTuple es => freeVarsListF fuel es
  | fuel + 1, .TRecord fs rest => do
    let a ← freeVarsListF fuel (fs.map Prod.snd)
    match rest with
    | some r => do
      let b ← freeVarsF fuel r
      some (nunion a b)
    | none => some a
  | fuel + 1, .TResult o => freeVarsF fuel o
  | fuel + 1, .TTag _ args => freeVarsListF fuel args

def freeVarsListF : Nat → List Ty → Option (List Nat)
  | 0, _ => none
  | _ + 1, [] => some []
  | fuel + 1, t :: ts => do
    let a ← freeVarsF fuel t
    let b ← freeVarsListF fuel ts
    some (nunion a b)

end

/-- `freeVarsScheme` from `typechecker.ts`: free variables of the type
minus the quantified ones. -/
def freeVarsSchemeF (fuel : Nat) (s : Scheme) : Option (List Nat) := do
  let fv ← freeVarsF fuel s.type
  some (fv.filter (fun v => !s.vars.contains v))

/-- `freeVarsEnv` from `typechecker.ts`. -/
def freeVarsEnvF (fuel : Nat) : TypeEnv → Option (List Nat)
  | [] => some []
  | (_, s) :: rest => do
    let a ← freeVarsEnvF fuel rest
    let b ← freeVarsSchemeF fuel s
    some (nunion a b)

mutual

/-- `substituteVars` from `typechecker.ts`: a one-shot (non-transitive)
variable replacement, used by `instantiate`. -/
def substituteVarsF : Nat → List (Nat × Ty) → Ty → Option Ty
  | 0, _, _ => none
  | _ + 1, mapping, .TVar id =>
    (match nlookup mapping id with
    | some t => some t
    | none => some (.TVar id))
  | _ + 1, _, .TCon name => some (.TCon name)
  | fuel + 1, mapping, .TFn p r => do
    let p2 ← substituteVarsF fuel mapping p
    let r2 ← substituteVarsF fuel mapping r
    some (.TFn p2 r2)
  | fuel + 1, mapping, .TList e => do
    let e2 ← substituteVarsF fuel mapping e
    some (.TList e2)
  | fuel + 1, mapping, .TTuple es => do
    let es2 ← substituteVarsListF fuel mapping es
    some (.TTuple es2)
  | fuel + 1, mapping, .TRecord fs rest => do
    let fs2 ← substituteVarsFieldsF fuel mapping fs
    match rest with
    | some r => do
      let r2 ← substituteVarsF fuel mapping r
      some (.TRecord fs2 (some r2))
    | none => some (.TRecord fs2 none)
  | fuel + 1, mapping, .TResult o => do
    let o2 ← substituteVarsF fuel mapping o
    some (.TResult o2)
  | fuel + 1, mapping, .TTag tag args => do
    let args2 ← substituteVarsListF fuel mapping args
    some (.TTag tag args2)

def substituteVarsListF : Nat → List (Nat × Ty) → List Ty → Option (List Ty)
  | 0, _, _ => none
  | _ + 1, _, [] => some []
  | fuel + 1, mapping, t :: ts => do
    let t2 ← substituteVarsF fuel mapping t
    let ts2 ← substituteVarsListF fuel mapping ts
    some (t2 :: ts2)

def substituteVarsFieldsF : Nat → List (Nat × Ty) → List (String × Ty) → Option (List (String × Ty))
  | 0, _, _ => none
  | _ + 1, _, [] => some []
  | fuel + 1, mapping, (k, t) :: fs => do
    let t2 ← substituteVarsF fuel mapping t
    let fs2 ← substituteVarsFieldsF fuel mapping fs
    some ((k, t2) :: fs2)

end

/-- `instantiate` from `typechecker.ts`: replace every quantified variable
with a fresh one.  The counter is threaded explicitly (the TS `_nextId`
global); returns the instantiated type and the new counter. -/
def instantiateF (fuel : Nat) (s : Scheme) (n : Nat) : Option (Ty × Nat) := do
  let mapping := (s.vars.enum).map (fun p => (p.2, Ty.TVar (n + p.1)))
  let t ← substituteVarsF fuel mapping s.type
  some (t, n + s.vars.length)

/-- `applySubstEnv` from `typechecker.ts`. -/
def applySubstEnvF (fuel : Nat) (subst : Subst) : TypeEnv → Option TypeEnv
  | [] => some []
  | (k, s) :: rest => do
    let t2 ← applySubstF fuel subst s.type
    let rest2 ← applySubstEnvF fuel subst rest
    some ((k, ⟨s.vars, t2⟩) :: rest2)

/-- `generalize` from `typechecker.ts`. -/
def generalizeF (fuel : Nat) (env : TypeEnv) (t : Ty) (subst : Subst) : Option Scheme := do
  let resolved ← applySubstF fuel subst t
  let envSubst ← applySubstEnvF fuel subst env
  let envFree ← freeVarsEnvF fuel envSubst
  let tFree ← freeVarsF fuel resolved
  some ⟨tFree.filter (fun v => !envFree.contains v), resolved⟩

mutual

/-- `prettyType` from `types.ts`, fuelled (variables render as letters
modulo 26). -/
def prettyTypeF : Nat → Ty → String
  | 0, _ => ""
  | _ + 1, .TCon name => name
  | _ + 1, .TVar id => String.mk [Char.ofNat (97 + id % 26)]
  | fuel + 1, .TFn p r =>
    (match p with
     | .TFn _ _ => "(" ++ prettyTypeF fuel p ++ ")"
     | _ => prettyTypeF fuel p) ++ " -> " ++ prettyTypeF fuel r
  | fuel + 1, .TList e => "List(" ++ prettyTypeF fuel e ++ ")"
  | fuel + 1, .TTuple es =>
    "(" ++ String.intercalate ", " (prettyTypeListF fuel es) ++ ")"
  | fuel + 1, .TRecord fs rest =>
    let fieldsStr := String.intercalate ", "
      (fs.map (fun f => f.1 ++ ": " ++ prettyTypeF fuel f.2))
    (match rest with
     | some r => "\x7b " ++ fieldsStr ++ " | " ++ prettyTypeF fuel r ++ " \x7d"
     | none => "\x7b " ++ fieldsStr ++ " \x7d")
  | fuel + 1, .TResult o => "Result(" ++ prettyTypeF fuel o ++ ", String)"
  | fuel + 1, .TTag tag args =>
    if args.isEmpty then tag
    else tag ++ "(" ++ String.intercalate ", " (prettyTypeListF fuel args) ++ ")"

def prettyTypeListF : Nat → List Ty → List String
  | 0, _ => []
  | _ + 1, [] => []
  | fuel + 1, t :: ts => prettyTypeF fuel t :: prettyTypeListF fuel ts

end

/-- Result of an inferencer call: a value plus the threaded substitution
and fresh-variable counter, a thrown `TypeError` message, or fuel
exhaustion. -/
inductive IRes (α : Type) where
  | ok (a : α) (subst : Subst) (n : Nat)
  | err (msg : String)
  | fuelOut

/-- Result of `inferPattern`: type, introduced bindings (latest-set first),
threaded substitution and counter.  Pattern inference never throws. -/
inductive PRes where
  | ok (t : Ty) (bindings : List (String × Ty)) (subst : Subst) (n : Nat)
  | fuelOut

/-- Result of the sub-pattern list loops of `inferPattern`. -/
inductive PResList where
  | ok (types : List Ty) (bindings : List (String × Ty)) (subst : Subst) (n : Nat)
  | fuelOut

/-- Result of the record-field loop of `inferPattern`. -/
inductive PResFields where
  | ok (fields : List (String × Ty)) (bindings : List (String × Ty)) (subst : Subst) (n : Nat)
  | fuelOut

/-- `inferBinOp` from `typechecker.ts`. -/
def inferBinOpF (fuel : Nat) (op : String) (leftT rightT : Ty) (subst : Subst)
    (n : Nat) : IRes Ty :=
  if op = "+" || op = "-" || op = "*" || op = "/" || op = "%" then
    match unifyF fuel leftT rightT subst with
    | .ok s1 =>
      (match applySubstF fuel s1 leftT with
      | some t => .ok t s1 n
      | none => .fuelOut)
    | .err m => .err m
    | .fuelOut => .fuelOut
  else if op = "==" || op = "!=" || op = "<" || op = ">" || op = "<=" || op = ">=" then
    match unifyF fuel leftT rightT subst with
    | .ok s1 => .ok (.TCon "Bool") s1 n
    | .err m => .err m
    | .fuelOut => .fuelOut
  else if op = "++" then
    match unifyF fuel leftT (.TCon "String") subst with
    | .ok s1 =>
      (match unifyF fuel rightT (.TCon "String") s1 with
      | .ok s2 => .ok (.TCon "String") s2 n
      | .err m => .err m
      | .fuelOut => .fuelOut)
    | .err m => .err m
    | .fuelOut => .fuelOut
  else if op = "&&" || op = "||" then
    match unifyF fuel leftT (.TCon "Bool") subst with
    | .ok s1 =>
      (match unifyF fuel rightT (.TCon "Bool") s1 with
      | .ok s2 => .ok (.TCon "Bool") s2 n
      | .err m => .err m
      | .fuelOut => .fuelOut)
    | .err m => .err m
    | .fuelOut => .fuelOut
  else .err ("Unknown operator: " ++ op)

mutual

/-- `inferPattern` from `typechecker.ts`; the substitution is threaded
through unchanged (the source never extends it here). -/
def inferPatternF : Nat → Pattern → Subst → Nat → PRes
  | 0, _, _, _ => .fuelOut
  | _ + 1, .IntPat _, subst, n => .ok (.TCon "Int") [] subst n
  | _ + 1, .FloatPat _, subst, n => .ok (.TCon "Float") [] subst n
  | _ + 1, .StringPat _, subst, n => .ok (.TCon "String") [] subst n
  | _ + 1, .BoolPat _, subst, n => .ok (.TCon "Bool") [] subst n
  | _ + 1, .WildcardPat, subst, n => .ok (.TVar n) [] subst (n + 1)
  | _ + 1, .IdentPat name, subst, n => .ok (.TVar n) [(name, .TVar n)] subst (n + 1)
  | fuel + 1, .TagPat tag args, subst, n =>
    (match inferPatternListF fuel args subst n with
    | .fuelOut => .fuelOut
    | .ok argTypes bindings s2 n2 =>
      if tag = "Ok" then
        match argTypes with
        | [t1] => .ok (.TResult t1) bindings s2 n2
        | _ => .ok (.TTag tag argTypes) bindings s2 n2
      else if tag = "Err" then
        match argTypes with
        | [_] => .ok (.TResult (.TVar n2)) bindings s2 (n2 + 1)
        | _ => .ok (.TTag tag argTypes) bindings s2 n2
      else .ok (.TTag tag argTypes) bindings s2 n2)
  | fuel + 1, .TuplePat els, subst, n =>
    (match inferPatternListF fuel els subst n with
    | .fuelOut => .fuelOut
    | .ok types bindings s2 n2 => .ok (.TTuple types) bindings s2 n2)
  | fuel + 1, .RecordPat fields, subst, n =>
    (match inferPatternFieldsF fuel fields subst n with
    | .fuelOut => .fuelOut
    | .ok fieldTypes bindings s2 n2 =>
      .ok (.TRecord fieldTypes (some (.TVar n2))) bindings s2 (n2 + 1))

/-- The sub-pattern loops in `inferPattern` (tag arguments, tuple
elements); types in order, bindings merged latest-set first. -/
def inferPatternListF : Nat → List Pattern → Subst → Nat → PResList
  | 0, _, _, _ => .fuelOut
  | _ + 1, [], subst, n => .ok [] [] subst n
  | fuel + 1, p :: ps, subst, n =>
    (match inferPatternF fuel p subst n with
    | .fuelOut => .fuelOut
    | .ok t b s2 n2 =>
      match inferPatternListF fuel ps s2 n2 with
      | .fuelOut => .fuelOut
      | .ok ts bs s3 n3 => .ok (t :: ts) (bs ++ b) s3 n3)

/-- The record-field loop in `inferPattern`. -/
def inferPatternFieldsF : Nat → List (String × Pattern) → Subst → Nat → PResFields
  | 0, _, _, _ => .fuelOut
  | _ + 1, [], subst, n => .ok [] [] subst n
  | fuel + 1, (name, p) :: fs, subst, n =>
    (match inferPatternF fuel p subst n with
    | .fuelOut => .fuelOut
    | .ok t b s2 n2 =>
      match inferPatternFieldsF fuel fs s2 n2 with
      | .fuelOut => .fuelOut
      | .ok ts bs s3 n3 => .ok ((name, t) :: ts) (bs ++ b) s3 n3)

end

mutual

/-- `inferExpr` from `typechecker.ts`, fuelled.  `withSpan` wrappers are
identities here (they only re-package error messages with source spans). -/
def inferExprF : Nat → Expr → TypeEnv → Subst → Nat → IRes Ty
  | 0, _, _, _, _ => .fuelOut
  | _ + 1, .IntLit _, _, subst, n => .ok (.TCon "Int") subst n
  | _ + 1, .FloatLit _, _, subst, n => .ok (.TCon "Float") subst n
  | _ + 1, .StringLit _, _, subst, n => .ok (.TCon "String") subst n
  | _ + 1, .BoolLit _, _, subst, n => .ok (.TCon "Bool") subst n
  | _ + 1, .UnitLit, _, subst, n => .ok (.TCon "Unit") subst n
  | fuel + 1, .Ident name, env, subst, n =>
    (match alookup env name with
    | none => .err ("Undefined variable: " ++ name)
    | some scheme =>
      match instantiateF fuel scheme n with
      | some (t, n2) => .ok t subst n2
      | none => .fuelOut)
  | fuel + 1, .BinOp op l r, env, subst, n =>
    (match inferExprF fuel l env subst n with
    | .ok leftT s1 n1 =>
      (match inferExprF fuel r env s1 n1 with
      | .ok rightT s2 n2 => inferBinOpF fuel op leftT rightT s2 n2
      | .err m => .err m
      | .fuelOut => .fuelOut)
    | .err m => .err m
    | .fuelOut => .fuelOut)
  | fuel + 1, .UnaryOp op inner, env, subst, n =>
    (match inferExprF fuel inner env subst n with
    | .ok operandT s1 n1 =>
      if op = "!" then
        match unifyF fuel operandT (.TCon "Bool") s1 with
        | .ok s2 => .ok (.TCon "Bool") s2 n1
        | .err m => .err m
        | .fuelOut => .fuelOut
      else if op = "-" then
        match unifyF fuel operandT (.TCon "Int") s1 with
        | .ok s2 => .ok (.TCon "Int") s2 n1
        | .err _ =>
          (match unifyF fuel operandT (.TCon "Float") s1 with
          | .ok s2 => .ok (.TCon "Float") s2 n1
          | .err m => .err m
          | .fuelOut => .fuelOut)
        | .fuelOut => .fuelOut
      else .err ("Unknown unary op: " ++ op)
    | .err m => .err m
    | .fuelOut => .fuelOut)
  | fuel + 1, .Let name value body recFlag, env, subst, n =>
    (match inferExprF fuel value env subst n with
    | .ok valT s1 n1 =>
      (match (if recFlag then some (mono valT) else generalizeF fuel env valT s1) with
      | none => .fuelOut
      | some scheme => inferExprF fuel body ((name, scheme) :: env) s1 n1)
    | .err m => .err m
    | .fuelOut => .fuelOut)
  | fuel + 1, .Fn param body, env, subst, n =>
    (match inferExprF fuel body ((param, mono (.TVar n)) :: env) subst (n + 1) with
    | .ok bodyT s1 n1 =>
      (match applySubstF fuel s1 (.TVar n) with
      | some paramT => .ok (.TFn paramT bodyT) s1 n1
      | none => .fuelOut)
    | .err m => .err m
    | .fuelOut => .fuelOut)
  | fuel + 1, .Call fnE argE, env, subst, n =>
    (match inferExprF fuel fnE env subst n with
    | .ok fnT s1 n1 =>
      (match inferExprF fuel argE env s1 n1 with
      | .ok argT s2 n2 =>
        (match applySubstF fuel s2 fnT with
        | none => .fuelOut
        | some fnT2 =>
          match unifyF fuel fnT2 (.TFn argT (.TVar n2)) s2 with
          | .ok s3 =>
            (match applySubstF fuel s3 (.TVar n2) with
            | some retT => .ok retT s3 (n2 + 1)
            | none => .fuelOut)
          | .err m => .err m
          | .fuelOut => .fuelOut)
      | .err m => .err m
      | .fuelOut => .fuelOut)
    | .err m => .err m
    | .fuelOut => .fuelOut)
  | fuel + 1, .If cond thenE elseE, env, subst, n =>
    (match inferExprF fuel cond env subst n with
    | .ok condT s1 n1 =>
      (match unifyF fuel condT (.TCon "Bool") s1 with
      | .ok s2 =>
        (match inferExprF fuel thenE env s2 n1 with
        | .ok thenT s3 n3 =>
          (match inferExprF fuel elseE env s3 n3 with
          | .ok elseT s4 n4 =>
            (match unifyF fuel thenT elseT s4 with
            | .ok s5 =>
              (match applySubstF fuel s5 thenT with
              | some t => .ok t s5 n4
              | none => .fuelOut)
            | .err m => .err m
            | .fuelOut => .fuelOut)
          | .err m => .err m
          | .fuelOut => .fuelOut)
        | .err m => .err m
        | .fuelOut => .fuelOut)
      | .err m => .err m
      | .fuelOut => .fuelOut)
    | .err m => .err m
    | .fuelOut => .fuelOut)
  | fuel + 1, .List els, env, subst, n =>
    (match els with
    | [] => .ok (.TList (.TVar n)) subst (n + 1)
    | first :: rest =>
      match inferExprF fuel first env subst n with
      | .ok firstT s1 n1 =>
        (match inferListUnifyF fuel firstT rest env s1 n1 with
        | .ok _ s2 n2 =>
          (match applySubstF fuel s2 firstT with
          | some t => .ok (.TList t) s2 n2
          | none => .fuelOut)
        | .err m => .err m
        | .fuelOut => .fuelOut)
      | .err m => .err m
      | .fuelOut => .fuelOut)
  | fuel + 1, .Tuple els, env, subst, n =>
    (match inferListTypesF fuel els env subst n with
    | .ok types s1 n1 => .ok (.TTuple types) s1 n1
    | .err m => .err m
    | .fuelOut => .fuelOut)
  | fuel + 1, .Record fields, env, subst, n =>
    (match inferRecordTypesF fuel fields env subst n with
    | .ok fieldTypes s1 n1 => .ok (.TRecord fieldTypes none) s1 n1
    | .err m => .err m
    | .fuelOut => .fuelOut)
  | fuel + 1, .FieldAccess inner field, env, subst, n =>
    (match inferExprF fuel inner env subst n with
    | .ok recT s1 n1 =>
      (match applySubstF fuel s1 recT with
      | none => .fuelOut
      | some resolved =>
        match resolved with
        | .TRecord fs _ =>
          (match alookup fs field with
          | some fieldT => .ok fieldT s1 n1
          | none => .err ("No field " ++ field ++ " in record"))
        | .TVar _ =>
          (match unifyF fuel resolved
              (.TRecord [(field, .TVar n1)] (some (.TVar (n1 + 1)))) s1 with
          | .ok s2 =>
            (match applySubstF fuel s2 (.TVar n1) with
            | some t => .ok t s2 (n1 + 2)
            | none => .fuelOut)
          | .err m => .err m
          | .fuelOut => .fuelOut)
        | other => .err ("Field access on non-record type: " ++ tyKindName other))
    | .err m => .err m
    | .fuelOut => .fuelOut)
  | fuel + 1, .Tag tag args, env, subst, n =>
    (match inferListTypesF fuel args env subst n with
    | .ok argTypes s1 n1 =>
      if tag = "Ok" then
        match argTypes with
        | [t1] => .ok (.TResult t1) s1 n1
        | _ => .ok (.TTag tag argTypes) s1 n1
      else if tag = "Err" then
        match argTypes with
        | [_] => .ok (.TResult (.TVar n1)) s1 (n1 + 1)
        | _ => .ok (.TTag tag argTypes) s1 n1
      else .ok (.TTag tag argTypes) s1 n1
    | .err m => .err m
    | .fuelOut => .fuelOut)
  | fuel + 1, .Pipe l r, env, subst, n =>
    (match inferExprF fuel l env subst n with
    | .ok leftT s1 n1 =>
      (match r with
      | .Catch _ errorName fallback =>
        (match applySubstF fuel s1 leftT with
        | none => .fuelOut
        | some leftT2 =>
          match unifyF fuel leftT2 (.TResult (.TVar n1)) s1 with
          | .ok s2 =>
            (match inferExprF fuel fallback
                ((errorName, mono (.TCon "String")) :: env) s2 (n1 + 1) with
            | .ok fallbackT s3 n3 =>
              (match applySubstF fuel s3 (.TVar n1) with
              | none => .fuelOut
              | some okT2 =>
                match unifyF fuel okT2 fallbackT s3 with
                | .ok s4 =>
                  (match applySubstF fuel s4 (.TVar n1) with
                  | some t => .ok t s4 n3
                  | none => .fuelOut)
                | .err m => .err m
                | .fuelOut => .fuelOut)
            | .err m => .err m
            | .fuelOut => .fuelOut)
          | .err m => .err m
          | .fuelOut => .fuelOut)
      | .Try innerFn =>
        (match inferExprF fuel innerFn env s1 n1 with
        | .ok fnT s2 n2 =>
          (match applySubstF fuel s2 fnT, applySubstF fuel s2 leftT with
          | some fnT2, some leftT2 =>
            (match unifyF fuel fnT2 (.TFn leftT2 (.TVar n2)) s2 with
            | .ok s3 =>
              (match applySubstF fuel s3 (.TVar n2) with
              | none => .fuelOut
              | some callRetT2 =>
                match unifyF fuel callRetT2 (.TResult (.TVar (n2 + 1))) s3 with
                | .ok s4 =>
                  (match applySubstF fuel s4 (.TVar (n2 + 1)) with
                  | some t => .ok t s4 (n2 + 2)
                  | none => .fuelOut)
                | .err m => .err m
                | .fuelOut => .fuelOut)
            | .err m => .err m
            | .fuelOut => .fuelOut)
          | _, _ => .fuelOut)
        | .err m => .err m
        | .fuelOut => .fuelOut)
      | _ =>
        (match inferExprF fuel r env s1 n1 with
        | .ok rightT s2 n2 =>
          (match applySubstF fuel s2 rightT, applySubstF fuel s2 leftT with
          | some rightT2, some leftT2 =>
            (match unifyF fuel rightT2 (.TFn leftT2 (.TVar n2)) s2 with
            | .ok s3 =>
              (match applySubstF fuel s3 (.TVar n2) with
              | some t => .ok t s3 (n2 + 1)
              | none => .fuelOut)
            | .err m => .err m
            | .fuelOut => .fuelOut)
          | _, _ => .fuelOut)
        | .err m => .err m
        | .fuelOut => .fuelOut))
    | .err m => .err m
    | .fuelOut => .fuelOut)
  | fuel + 1, .Match subject cases, env, subst, n =>
    (match inferExprF fuel subject env subst n with
    | .ok subjT s1 n1 =>
      (match inferMatchCasesF fuel cases subjT (.TVar n1) env s1 (n1 + 1) with
      | .ok _ s2 n2 =>
        (match applySubstF fuel s2 (.TVar n1) with
        | some t => .ok t s2 n2
        | none => .fuelOut)
      | .err m => .err m
      | .fuelOut => .fuelOut)
    | .err m => .err m
    | .fuelOut => .fuelOut)
  | fuel + 1, .Try inner, env, subst, n =>
    (match inferExprF fuel inner env subst n with
    | .ok exprT s1 n1 =>
      (match applySubstF fuel s1 exprT with
      | none => .fuelOut
      | some resolved =>
        match unifyF fuel resolved (.TResult (.TVar n1)) s1 with
        | .ok s2 =>
          (match applySubstF fuel s2 (.TVar n1) with
          | some t => .ok t s2 (n1 + 1)
          | none => .fuelOut)
        | .err _ =>
          .err ("The ? operator requires a Result type, but got " ++
            prettyTypeF (fuel + 1) resolved)
        | .fuelOut => .fuelOut)
    | .err m => .err m
    | .fuelOut => .fuelOut)
  | fuel + 1, .Catch inner errorName fallback, env, subst, n =>
    (match inferExprF fuel inner env subst n with
    | .ok _ s1 n1 =>
      inferExprF fuel fallback ((errorName, mono (.TCon "String")) :: env) s1 n1
    | .err m => .err m
    | .fuelOut => .fuelOut)
  termination_by structural fuel _ _ _ _ => fuel

/-- The element loops of `inferExpr` for tuples, records-as-lists and tag
arguments: infer each in sequence. -/
def inferListTypesF : Nat → List Expr → TypeEnv → Subst → Nat → IRes (List Ty)
  | 0, _, _, _, _ => .fuelOut
  | _ + 1, [], _, subst, n => .ok [] subst n
  | fuel + 1, e :: es, env, subst, n =>
    (match inferExprF fuel e env subst n with
    | .ok t s1 n1 =>
      (match inferListTypesF fuel es env s1 n1 with
      | .ok ts s2 n2 => .ok (t :: ts) s2 n2
      | .err m => .err m
      | .fuelOut => .fuelOut)
    | .err m => .err m
    | .fuelOut => .fuelOut)
  termination_by structural fuel _ _ _ _ => fuel

/-- The record-field loop of `inferExpr`'s `Record` case. -/
def inferRecordTypesF : Nat → List (String × Expr) → TypeEnv → Subst → Nat →
    IRes (List (String × Ty))
  | 0, _, _, _, _ => .fuelOut
  | _ + 1, [], _, subst, n => .ok [] subst n
  | fuel + 1, (name, e) :: fs, env, subst, n =>
    (match inferExprF fuel e env subst n with
    | .ok t s1 n1 =>
      (match inferRecordTypesF fuel fs env s1 n1 with
      | .ok ts s2 n2 => .ok ((name, t) :: ts) s2 n2
      | .err m => .err m
      | .fuelOut => .fuelOut)
    | .err m => .err m
    | .fuelOut => .fuelOut)
  termination_by structural fuel _ _ _ _ => fuel

/-- The tail loop of `inferExpr`'s `List` case: unify each later element's
type against the first element's type. -/
def inferListUnifyF : Nat → Ty → List Expr → TypeEnv → Subst → Nat → IRes Unit
  | 0, _, _, _, _, _ => .fuelOut
  | _ + 1, _, [], _, subst, n => .ok () subst n
  | fuel + 1, firstT, e :: es, env, subst, n =>
    (match inferExprF fuel e env subst n with
    | .ok elT s1 n1 =>
      (match unifyF fuel firstT elT s1 with
      | .ok s2 => inferListUnifyF fuel firstT es env s2 n1
      | .err m => .err m
      | .fuelOut => .fuelOut)
    | .err m => .err m
    | .fuelOut => .fuelOut)
  termination_by structural fuel _ _ _ _ _ => fuel

/-- The case loop of `inferExpr`'s `Match` handler: infer the pattern,
skip (or attempt and discard on failure) the subject-pattern unification,
bind the pattern's variables monomorphically, infer the body, and unify it
with the shared return variable. -/
def inferMatchCasesF : Nat → List (Pattern × Expr) → Ty → Ty → TypeEnv →
    Subst → Nat → IRes Unit
  | 0, _, _, _, _, _, _ => .fuelOut
  | _ + 1, [], _, _, _, subst, n => .ok () subst n
  | fuel + 1, (pat, body) :: cases, subjT, retT, env, subst, n =>
    (match inferPatternF fuel pat subst n with
    | .fuelOut => .fuelOut
    | .ok patT patBindings s2 n2 =>
      let afterUnify : Option Subst :=
        match patT with
        | .TTag _ _ => some s2
        | _ =>
          match applySubstF fuel s2 subjT with
          | none => none
          | some subjT2 =>
            match unifyF fuel subjT2 patT s2 with
            | .ok s3 => some s3
            | .err _ => some s2
            | .fuelOut => none
      match afterUnify with
      | none => .fuelOut
      | some s3 =>
        match inferExprF fuel body
            ((patBindings.map (fun b => (b.1, mono b.2))) ++ env) s3 n2 with
        | .ok bodyT s4 n4 =>
          (match unifyF fuel retT bodyT s4 with
          | .ok s5 => inferMatchCasesF fuel cases subjT retT env s5 n4
          | .err m => .err m
          | .fuelOut => .fuelOut)
        | .err m => .err m
        | .fuelOut => .fuelOut)
  termination_by structural fuel _ _ _ _ _ _ => fuel

end

/-- Result of top-level inference. -/
inductive TRes where
  | ok (t : Ty)
  | err (msg : String)
  | fuelOut

/-- `infer` from `typechecker.ts`, with the variable counter freshly reset
(as `runSource` does via `resetTypeVarCounter`). -/
def inferF (fuel : Nat) (expr : Expr) (env : TypeEnv) : TRes :=
  match inferExprF fuel expr env [] 0 with
  | .ok t s _ =>
    (match applySubstF fuel s t with
    | some t2 => .ok t2
    | none => .fuelOut)
  | .err m => .err m
  | .fuelOut => .fuelOut

/-- Result shape of `runSource` (`runner.ts`, the claims' part_005
version): an output line or an error message; `fuelOut` is the embedding
artifact. -/
inductive RunResult where
  | output (s : String)
  | error (s : String)
  | fuelOut

/-- JS `String.prototype.includes` on character lists. -/
def strIncludes : List Char → List Char → Bool
  | needle, [] => needle.isEmpty
  | needle, c :: rest => needle.isPrefixOf (c :: rest) || strIncludes needle rest

/-- `runSource` from `runner.ts` (part_005): lex, parse, type-check —
blocking on type errors except those whose message contains
"Undefined variable" (the prelude has no pre-seeded schemes) — then
evaluate in the prelude environment and pretty-print.  The `try/catch`
around the whole body maps every thrown error to an `error` result. -/
def runSourceF (fuel : Nat) (source : String) : RunResult :=
  match lex source.toList with
  | .error e => .error e
  | .ok tokens =>
    match parse fuel tokens with
    | .error e => if e = "FUEL" then .fuelOut else .error e
    | .ok ast =>
      let go : RunResult :=
        match evaluateF fuel ast createPrelude with
        | .ok v => .output (prettyPrintF fuel v)
        | .early v => .output (prettyPrintF fuel v)
        | .err m => .error m
        | .fuelOut => .fuelOut
      match inferF fuel ast [] with
      | .fuelOut => .fuelOut
      | .err m =>
        if strIncludes "Undefined variable".toList m.toList then go
        else .error m
      | .ok _ => go

/-- The expression contains no conditional (`If`) node anywhere. -/
inductive NoIf : Expr → Prop where
  | intLit {n} : NoIf (.IntLit n)
  | floatLit {q} : NoIf (.FloatLit q)
  | stringLit {s} : NoIf (.StringLit s)
  | boolLit {b} : NoIf (.BoolLit b)
  | unitLit : NoIf .UnitLit
  | ident {x} : NoIf (.Ident x)
  | letE {x v b r} : NoIf v → NoIf b → NoIf (.Let x v b r)
  | fn {p b} : NoIf b → NoIf (.Fn p b)
  | call {f a} : NoIf f → NoIf a → NoIf (.Call f a)
  | binOp {op l r} : NoIf l → NoIf r → NoIf (.BinOp op l r)
  | unaryOp {op e} : NoIf e → NoIf (.UnaryOp op e)
  | pipe {l r} : NoIf l → NoIf r → NoIf (.Pipe l r)
  | tryE {e} : NoIf e → NoIf (.Try e)
  | catchE {e x f} : NoIf e → NoIf f → NoIf (.Catch e x f)
  | matchE {s cs} : NoIf s → (∀ c ∈ cs, NoIf (Prod.snd c)) → NoIf (.Match s cs)
  | list {es} : (∀ e ∈ es, NoIf e) → NoIf (.List es)
  | tuple {es} : (∀ e ∈ es, NoIf e) → NoIf (.Tuple es)
  | record {fs} : (∀ f ∈ fs, NoIf (Prod.snd f)) → NoIf (.Record fs)
  | fieldAccess {e x} : NoIf e → NoIf (.FieldAccess e x)
  | tag {t args} : (∀ a ∈ args, NoIf a) → NoIf (.Tag t args)

/-- The lexemes of a token list, concatenated with single-space
separators: the re-rendered source of claim C7. -/
def render : List Tok → List Char
  | [] => []
  | t :: ts => t.2 ++ (match ts with | [] => [] | _ :: _ => ' ' :: render ts)

/-- A float lexeme: one or more digits, a dot, one or more digits. -/
def floatLexOk (lx : List Char) : Bool :=
  match lx.dropWhile isDigit with
  | '.' :: b => !(lx.takeWhile isDigit).isEmpty && !b.isEmpty && b.all isDigit
  | _ => false

/-- The tail of a string lexeme after the opening quote: content
characters (no quote, no newline) ending in the closing quote. -/
def strTail : List Char → Bool
  | [] => false
  | [c] => c = '"'
  | c :: cs => if c = '"' then false else if c = '\n' then false else strTail cs

/-- A lower-case identifier lexeme: alphanumeric with an alphabetic
non-uppercase head, not a keyword, and not the bare underscore (which
lexes as the wildcard token instead). -/
def identLexOk : List Char → Bool
  | [] => false
  | c :: rest =>
    isAlpha c && !('A' ≤ c && c ≤ 'Z') && (c :: rest).all isAlphaNumeric &&
      (keywordKind (c :: rest)).isNone && !(c = '_' && rest.isEmpty)

/-- An upper-case identifier lexeme. -/
def upperLexOk : List Char → Bool
  | [] => false
  | c :: rest =>
    ('A' ≤ c && c ≤ 'Z') && (c :: rest).all isAlphaNumeric &&
      (keywordKind (c :: rest)).isNone

/-- The tokens the scanner can emit, one disjunct per branch of the
scanner loop: characterises `lex` output for the round-trip claim. -/
def GoodTok : Tok → Prop
  | (k, lx) =>
    (k = .Int ∧ lx ≠ [] ∧ lx.all isDigit = true) ∨
    (k = .Float ∧ floatLexOk lx = true) ∨
    (k = .String ∧ ∃ body, lx = '"' :: body ∧ strTail body = true) ∨
    keywordKind lx = some k ∨
    (k = .Underscore ∧ lx = ['_']) ∨
    (k = .UpperIdent ∧ upperLexOk lx = true) ∨
    (k = .Ident ∧ identLexOk lx = true) ∨
    (∃ a b, lx = [a, b] ∧ twoCharOp a b = some (k, lx)) ∨
    (∃ a, lx = [a] ∧ singleCharOp a = some k)

/-- A valid continuation after a rendered lexeme: end of input or the
single-space separator. -/
def SepOk (r : List Char) : Prop := r = [] ∨ ∃ r2, r = ' ' :: r2

example : lex "42".toList =
    .ok [(.Int, ['4', '2']), (.EOF, [])] := by rfl

example : lex "x |> fn n -> n * 2 |> g".toList = .ok
    [(.Ident, ['x']), (.Pipe, ['|', '>']), (.Fn, ['f', 'n']), (.Ident, ['n']),
     (.Arrow, ['-', '>']), (.Ident, ['n']), (.Star, ['*']), (.Int, ['2']),
     (.Pipe, ['|', '>']), (.Ident, ['g']), (.EOF, [])] := by rfl

example : lex "if".toList = .ok [(.If, ['i', 'f']), (.EOF, [])] := by rfl

example : lexParse 100 "x |> fn n -> n * 2 |> g" = .ok
    (.Pipe (.Pipe (.Ident "x") (.Fn "n" (.BinOp "*" (.Ident "n") (.IntLit 2))))
      (.Ident "g")) := by rfl

@[simp] theorem EvalRes.bind_ok {α β : Type} (a : α) (f : α → EvalRes β) :
    EvalRes.ok a >>= f = f a := rfl

@[simp] theorem EvalRes.bind_early {α β : Type} (v : Value) (f : α → EvalRes β) :
    (EvalRes.early v : EvalRes α) >>= f = .early v := rfl

@[simp] theorem EvalRes.bind_err {α β : Type} (m : String) (f : α → EvalRes β) :
    (EvalRes.err m : EvalRes α) >>= f = .err m := rfl

@[simp] theorem EvalRes.bind_fuelOut {α β : Type} (f : α → EvalRes β) :
    (EvalRes.fuelOut : EvalRes α) >>= f = .fuelOut := rfl

@[simp] theorem EvalRes.pure_eq_ok {α : Type} (a : α) :
    (pure a : EvalRes α) = .ok a := rfl

example :
    (match lexParse 100 srcCatchPipeline with
     | .ok e => evaluateF 100 e []
     | .error _ => .err "parse failed") = .ok (.Int 0) := by rfl

set_option maxHeartbeats 4000000 in
example :
    (match lexParse 100 srcFib with
     | .ok e => evaluateF 100 e []
     | .error _ => .err "parse failed") = .ok (.Int 55) := by rfl

theorem fibApp0 (f : Nat) (env : Env) :
    applyFnF (f + 5) (fibClo env) (.Int 0) = .ok (.Int 0) := by
  simp only [fibClo, fibBody, applyFnF, evalExprF, evalMatchF, matchPatternF,
    evalBinOp, intIntOp, alookup, EvalRes.bind_ok, String.reduceEq, reduceIte,
    ite_true, ite_false, Int.reduceLE, decide_True, decide_False, reduceCtorEq]

theorem fibApp1 (f : Nat) (env : Env) :
    applyFnF (f + 5) (fibClo env) (.Int 1) = .ok (.Int 1) := by
  simp only [fibClo, fibBody, applyFnF, evalExprF, evalMatchF, matchPatternF,
    evalBinOp, intIntOp, alookup, EvalRes.bind_ok, String.reduceEq, reduceIte,
    ite_true, ite_false, Int.reduceLE, decide_True, decide_False, reduceCtorEq]

theorem fibApp2 (f : Nat) (env : Env) :
    applyFnF (f + 17) (fibClo env) (.Int 2) = .ok (.Int 1) := by
  rw [show applyFnF (f + 17) (fibClo env) (.Int 2) =
        evalExprF (f + 16) fibBody
          (("n", Value.Int 2) :: ("fib", fibClo env) :: env) from rfl]
  simp only [fibClo, fibBody, evalExprF, evalMatchF, matchPatternF,
    evalBinOp, intIntOp, alookup, EvalRes.bind_ok, String.reduceEq, reduceIte,
    ite_true, ite_false, Int.reduceLE, Int.reduceSub, Int.reduceAdd,
    decide_True, decide_False, reduceCtorEq, fibApp1, fibApp0]

theorem fibApp3 (f : Nat) (env : Env) :
    applyFnF (f + 23) (fibClo env) (.Int 3) = .ok (.Int 2) := by
  rw [show applyFnF (f + 23) (fibClo env) (.Int 3) =
        evalExprF (f + 22) fibBody
          (("n", Value.Int 3) :: ("fib", fibClo env) :: env) from rfl]
  simp only [fibClo, fibBody, evalExprF, evalMatchF, matchPatternF,
    evalBinOp, intIntOp, alookup, EvalRes.bind_ok, String.reduceEq, reduceIte,
    ite_true, ite_false, Int.reduceLE, Int.reduceSub, Int.reduceAdd,
    decide_True, decide_False, reduceCtorEq, fibApp2, fibApp1]

theorem fibApp4 (f : Nat) (env : Env) :
    applyFnF (f + 29) (fibClo env) (.Int 4) = .ok (.Int 3) := by
  rw [show applyFnF (f + 29) (fibClo env) (.Int 4) =
        evalExprF (f + 28) fibBody
          (("n", Value.Int 4) :: ("fib", fibClo env) :: env) from rfl]
  simp only [fibClo, fibBody, evalExprF, evalMatchF, matchPatternF,
    evalBinOp, intIntOp, alookup, EvalRes.bind_ok, String.reduceEq, reduceIte,
    ite_true, ite_false, Int.reduceLE, Int.reduceSub, Int.reduceAdd,
    decide_True, decide_False, reduceCtorEq, fibApp3, fibApp2]

theorem fibApp5 (f : Nat) (env : Env) :
    applyFnF (f + 35) (fibClo env) (.Int 5) = .ok (.Int 5) := by
  rw [show applyFnF (f + 35) (fibClo env) (.Int 5) =
        evalExprF (f + 34) fibBody
          (("n", Value.Int 5) :: ("fib", fibClo env) :: env) from rfl]
  simp only [fibClo, fibBody, evalExprF, evalMatchF, matchPatternF,
    evalBinOp, intIntOp, alookup, EvalRes.bind_ok, String.reduceEq, reduceIte,
    ite_true, ite_false, Int.reduceLE, Int.reduceSub, Int.reduceAdd,
    decide_True, decide_False, reduceCtorEq, fibApp4, fibApp3]

theorem fibApp6 (f : Nat) (env : Env) :
    applyFnF (f + 41) (fibClo env) (.Int 6) = .ok (.Int 8) := by
  rw [show applyFnF (f + 41) (fibClo env) (.Int 6) =
        evalExprF (f + 40) fibBody
          (("n", Value.Int 6) :: ("fib", fibClo env) :: env) from rfl]
  simp only [fibClo, fibBody, evalExprF, evalMatchF, matchPatternF,
    evalBinOp, intIntOp, alookup, EvalRes.bind_ok, String.reduceEq, reduceIte,
    ite_true, ite_false, Int.reduceLE, Int.reduceSub, Int.reduceAdd,
    decide_True, decide_False, reduceCtorEq, fibApp5, fibApp4]

theorem fibApp7 (f : Nat) (env : Env) :
    applyFnF (f + 47) (fibClo env) (.Int 7) = .ok (.Int 13) := by
  rw [show applyFnF (f + 47) (fibClo env) (.Int 7) =
        evalExprF (f + 46) fibBody
          (("n", Value.Int 7) :: ("fib", fibClo env) :: env) from rfl]
  simp only [fibClo, fibBody, evalExprF, evalMatchF, matchPatternF,
    evalBinOp, intIntOp, alookup, EvalRes.bind_ok, String.reduceEq, reduceIte,
    ite_true, ite_false, Int.reduceLE, Int.reduceSub, Int.reduceAdd,
    decide_True, decide_False, reduceCtorEq, fibApp6, fibApp5]

theorem fibApp8 (f : Nat) (env : Env) :
    applyFnF (f + 53) (fibClo env) (.Int 8) = .ok (.Int 21) := by
  rw [show applyFnF (f + 53) (fibClo env) (.Int 8) =
        evalExprF (f + 52) fibBody
          (("n", Value.Int 8) :: ("fib", fibClo env) :: env) from rfl]
  simp only [fibClo, fibBody, evalExprF, evalMatchF, matchPatternF,
    evalBinOp, intIntOp, alookup, EvalRes.bind_ok, String.reduceEq, reduceIte,
    ite_true, ite_false, Int.reduceLE, Int.reduceSub, Int.reduceAdd,
    decide_True, decide_False, reduceCtorEq, fibApp7, fibApp6]

theorem fibApp9 (f : Nat) (env : Env) :
    applyFnF (f + 59) (fibClo env) (.Int 9) = .ok (.Int 34) := by
  rw [show applyFnF (f + 59) (fibClo env) (.Int 9) =
        evalExprF (f + 58) fibBody
          (("n", Value.Int 9) :: ("fib", fibClo env) :: env) from rfl]
  simp only [fibClo, fibBody, evalExprF, evalMatchF, matchPatternF,
    evalBinOp, intIntOp, alookup, EvalRes.bind_ok, String.reduceEq, reduceIte,
    ite_true, ite_false, Int.reduceLE, Int.reduceSub, Int.reduceAdd,
    decide_True, decide_False, reduceCtorEq, fibApp8, fibApp7]

theorem fibApp10 (f : Nat) (env : Env) :
    applyFnF (f + 65) (fibClo env) (.Int 10) = .ok (.Int 55) := by
  rw [show applyFnF (f + 65) (fibClo env) (.Int 10) =
        evalExprF (f + 64) fibBody
          (("n", Value.Int 10) :: ("fib", fibClo env) :: env) from rfl]
  simp only [fibClo, fibBody, evalExprF, evalMatchF, matchPatternF,
    evalBinOp, intIntOp, alookup, EvalRes.bind_ok, String.reduceEq, reduceIte,
    ite_true, ite_false, Int.reduceLE, Int.reduceSub, Int.reduceAdd,
    decide_True, decide_False, reduceCtorEq, fibApp9, fibApp8]

example : lexParse 100 srcFib = .ok progFib := by rfl

example (env : Env) : evaluateF 100 progFib env = .ok (.Int 55) := by
  simp only [progFib, fibBody, evaluateF, evalExprF, alookup, EvalRes.bind_ok,
    String.reduceEq, reduceIte, ite_true, ite_false, fibApp10]

example : unifyF 10 (.TTag "None" []) (.TTag "None" []) [] =
    .err "Cannot unify TTag with TTag" := by rfl

example : unifyF 10 (.TVar 0) (.TTag "C" [.TVar 0]) [] =
    .ok [(0, .TTag "C" [.TVar 0])] := by rfl

example : unifyF 10 (.TVar 0) (.TRecord [] (some (.TVar 0))) [] =
    .ok [(0, .TRecord [] (some (.TVar 0)))] := by rfl

example : unifyF 10 (.TVar 0) (.TFn (.TVar 0) (.TCon "Int")) [] =
    .err "infinite type" := by rfl

example : unifyF 10 (.TCon "Int") (.TCon "Int") [] = .ok [] := by rfl

/-- On the empty substitution, `applySubst` is the identity (given fuel
above the term's size), simultaneously for the three mutual traversals. -/
theorem applySubst_nil_all : ∀ fuel,
    (∀ t, sizeOf t < fuel → applySubstF fuel [] t = some t) ∧
    (∀ ts, sizeOf ts < fuel → applySubstListF fuel [] ts = some ts) ∧
    (∀ fs, sizeOf fs < fuel → applySubstFieldsF fuel [] fs = some fs) := by
  intro fuel
  induction fuel with
  | zero =>
    refine ⟨fun t h => ?_, fun ts h => ?_, fun fs h => ?_⟩ <;> omega
  | succ f ih =>
    obtain ⟨ih1, ih2, ih3⟩ := ih
    refine ⟨fun t h => ?_, fun ts h => ?_, fun fs h => ?_⟩
    · cases t with
      | TVar id => simp [applySubstF, nlookup]
      | TCon name => simp [applySubstF]
      | TFn p r =>
        simp only [Ty.TFn.sizeOf_spec] at h
        simp [applySubstF, ih1 p (by omega), ih1 r (by omega)]
      | TList e =>
        simp only [Ty.TList.sizeOf_spec] at h
        simp [applySubstF, ih1 e (by omega)]
      | TTuple es =>
        simp only [Ty.TTuple.sizeOf_spec] at h
        simp [applySubstF, ih2 es (by omega)]
      | TRecord fs rest =>
        simp only [Ty.TRecord.sizeOf_spec] at h
        cases rest with
        | none =>
          simp [applySubstF, ih3 fs (by simp at h; omega)]
        | some r =>
          simp only [Option.some.sizeOf_spec] at h
          simp [applySubstF, ih3 fs (by omega), ih1 r (by omega)]
      | TResult o =>
        simp only [Ty.TResult.sizeOf_spec] at h
        simp [applySubstF, ih1 o (by omega)]
      | TTag tag args =>
        simp only [Ty.TTag.sizeOf_spec] at h
        simp [applySubstF, ih2 args (by omega)]
    · cases ts with
      | nil => simp [applySubstListF]
      | cons t ts2 =>
        simp only [List.cons.sizeOf_spec] at h
        simp [applySubstListF, ih1 t (by omega), ih2 ts2 (by omega)]
    · cases fs with
      | nil => simp [applySubstFieldsF]
      | cons p fs2 =>
        obtain ⟨k, t⟩ := p
        simp only [List.cons.sizeOf_spec, Prod.mk.sizeOf_spec] at h
        simp [applySubstFieldsF, ih1 t (by omega), ih3 fs2 (by omega)]

theorem sizeOf_map_snd_le (fs : List (String × Ty)) :
    sizeOf (fs.map Prod.snd) ≤ sizeOf fs := by
  induction fs with
  | nil => simp
  | cons p rest ih =>
    obtain ⟨k, t⟩ := p
    simp only [List.map_cons, List.cons.sizeOf_spec, Prod.mk.sizeOf_spec]
    omega

/-- With enough fuel, `occursIn` on the empty substitution always returns
an answer (simultaneously with its list traversal). -/
theorem occursIn_nil_total : ∀ fuel,
    (∀ v t, sizeOf t < fuel → ∃ b, occursInF fuel v t [] = some b) ∧
    (∀ v ts, sizeOf ts < fuel → ∃ b, occursAnyF fuel v ts [] = some b) := by
  intro fuel
  induction fuel with
  | zero => refine ⟨fun v t h => ?_, fun v ts h => ?_⟩ <;> omega
  | succ f ih =>
    obtain ⟨ih1, ih2⟩ := ih
    have hsub := (applySubst_nil_all (f + 1)).1
    refine ⟨fun v t h => ?_, fun v ts h => ?_⟩
    · cases t with
      | TVar id => exact ⟨decide (id = v), by simp [occursInF, hsub _ h]⟩
      | TCon name => exact ⟨false, by simp [occursInF, hsub _ h]⟩
      | TFn p r =>
        simp only [Ty.TFn.sizeOf_spec] at h
        obtain ⟨b1, hb1⟩ := ih1 v p (by omega)
        cases b1 with
        | true =>
          exact ⟨true, by
            simp [occursInF, hsub (.TFn p r) (by simp only [Ty.TFn.sizeOf_spec]; omega), hb1]⟩
        | false =>
          obtain ⟨b2, hb2⟩ := ih1 v r (by omega)
          exact ⟨b2, by
            simp [occursInF, hsub (.TFn p r) (by simp only [Ty.TFn.sizeOf_spec]; omega), hb1, hb2]⟩
      | TList e =>
        simp only [Ty.TList.sizeOf_spec] at h
        obtain ⟨b, hb⟩ := ih1 v e (by omega)
        exact ⟨b, by
          simp [occursInF, hsub (.TList e) (by simp only [Ty.TList.sizeOf_spec]; omega), hb]⟩
      | TTuple es =>
        simp only [Ty.TTuple.sizeOf_spec] at h
        obtain ⟨b, hb⟩ := ih2 v es (by omega)
        exact ⟨b, by
          simp [occursInF, hsub (.TTuple es) (by simp only [Ty.TTuple.sizeOf_spec]; omega), hb]⟩
      | TRecord fs rest =>
        simp only [Ty.TRecord.sizeOf_spec] at h
        have hm : sizeOf (fs.map Prod.snd) < f := by
          have := sizeOf_map_snd_le fs
          cases rest <;> simp_all <;> omega
        obtain ⟨b, hb⟩ := ih2 v (fs.map Prod.snd) hm
        exact ⟨b, by
          simp [occursInF, hsub (.TRecord fs rest) (by simp only [Ty.TRecord.sizeOf_spec]; omega), hb]⟩
      | TResult o =>
        simp only [Ty.TResult.sizeOf_spec] at h
        obtain ⟨b, hb⟩ := ih1 v o (by omega)
        exact ⟨b, by
          simp [occursInF, hsub (.TResult o) (by simp only [Ty.TResult.sizeOf_spec]; omega), hb]⟩
      | TTag tag args =>
        exact ⟨false, by simp [occursInF, hsub _ h]⟩
    · cases ts with
      | nil => exact ⟨false, by simp [occursAnyF]⟩
      | cons t ts2 =>
        simp only [List.cons.sizeOf_spec] at h
        obtain ⟨b1, hb1⟩ := ih1 v t (by omega)
        cases b1 with
        | true => exact ⟨true, by simp [occursAnyF, hb1]⟩
        | false =>
          obtain ⟨b2, hb2⟩ := ih2 v ts2 (by omega)
          exact ⟨b2, by simp [occursAnyF, hb1, hb2]⟩

/-- If some member of `ts` is a covered occurrence of `v`, the traversal
reports `true` (on the empty substitution, with fuel above the list size). -/
theorem occursAny_nil_mem {v : Nat} {e : Ty}
    (he : ∀ fuel, sizeOf e < fuel → occursInF fuel v e [] = some true) :
    ∀ ts fuel, e ∈ ts → sizeOf ts < fuel → occursAnyF fuel v ts [] = some true := by
  intro ts
  induction ts with
  | nil => intro fuel hmem; cases hmem
  | cons a ts2 ih =>
    intro fuel hmem hsz
    cases fuel with
    | zero => omega
    | succ f =>
      simp only [List.cons.sizeOf_spec] at hsz
      rcases List.mem_cons.mp hmem with rfl | hmem2
      · simp [occursAnyF, he f (by omega)]
      · obtain ⟨b1, hb1⟩ := (occursIn_nil_total f).1 v a (by omega)
        cases b1 with
        | true => simp [occursAnyF, hb1]
        | false => simp [occursAnyF, hb1, ih f hmem2 (by omega)]

/-- A covered occurrence is found by `occursIn` on the empty substitution. -/
theorem occursIn_nil_of_mentionsCov {v : Nat} {t : Ty} (h : MentionsCov v t) :
    ∀ fuel, sizeOf t < fuel → occursInF fuel v t [] = some true := by
  induction h with
  | var =>
    intro fuel hsz
    cases fuel with
    | zero => omega
    | succ f => simp [occursInF, (applySubst_nil_all (f + 1)).1 _ hsz]
  | @fnParam p r hp ih =>
    intro fuel hsz
    cases fuel with
    | zero => omega
    | succ f =>
      simp only [Ty.TFn.sizeOf_spec] at hsz
      simp [occursInF,
        (applySubst_nil_all (f + 1)).1 (.TFn p r) (by simp only [Ty.TFn.sizeOf_spec]; omega),
        ih f (by omega)]
  | @fnRet p r hr ih =>
    intro fuel hsz
    cases fuel with
    | zero => omega
    | succ f =>
      simp only [Ty.TFn.sizeOf_spec] at hsz
      obtain ⟨b1, hb1⟩ := (occursIn_nil_total f).1 v p (by omega)
      cases b1 with
      | true =>
        simp [occursInF,
          (applySubst_nil_all (f + 1)).1 (.TFn p r) (by simp only [Ty.TFn.sizeOf_spec]; omega),
          hb1]
      | false =>
        simp [occursInF,
          (applySubst_nil_all (f + 1)).1 (.TFn p r) (by simp only [Ty.TFn.sizeOf_spec]; omega),
          hb1, ih f (by omega)]
  | @list e he ih =>
    intro fuel hsz
    cases fuel with
    | zero => omega
    | succ f =>
      simp only [Ty.TList.sizeOf_spec] at hsz
      simp [occursInF,
        (applySubst_nil_all (f + 1)).1 (.TList e) (by simp only [Ty.TList.sizeOf_spec]; omega),
        ih f (by omega)]
  | @tupleEl es e hmem he ih =>
    intro fuel hsz
    cases fuel with
    | zero => omega
    | succ f =>
      simp only [Ty.TTuple.sizeOf_spec] at hsz
      simp [occursInF,
        (applySubst_nil_all (f + 1)).1 (.TTuple es) (by simp only [Ty.TTuple.sizeOf_spec]; omega),
        occursAny_nil_mem ih es f hmem (by omega)]
  | @result o ho ih =>
    intro fuel hsz
    cases fuel with
    | zero => omega
    | succ f =>
      simp only [Ty.TResult.sizeOf_spec] at hsz
      simp [occursInF,
        (applySubst_nil_all (f + 1)).1 (.TResult o) (by simp only [Ty.TResult.sizeOf_spec]; omega),
        ih f (by omega)]
  | @recordField fs rest k t hmem ht ih =>
    intro fuel hsz
    cases fuel with
    | zero => omega
    | succ f =>
      simp only [Ty.TRecord.sizeOf_spec] at hsz
      have hmem2 : t ∈ fs.map Prod.snd := List.mem_map.mpr ⟨(k, t), hmem, rfl⟩
      have hm : sizeOf (fs.map Prod.snd) < f := by
        have := sizeOf_map_snd_le fs
        cases rest <;> simp_all <;> omega
      simp [occursInF,
        (applySubst_nil_all (f + 1)).1 (.TRecord fs rest)
          (by simp only [Ty.TRecord.sizeOf_spec]; omega),
        occursAny_nil_mem ih (fs.map Prod.snd) f hmem2 hm]

theorem applySubst_nil_var {f : Nat} (hf : 1 ≤ f) (v : Nat) :
    applySubstF f [] (.TVar v) = some (.TVar v) := by
  cases f with
  | zero => omega
  | succ f2 => simp [applySubstF, nlookup]

/-- `applySubst` never changes the head constructor (or tag name) of a tag
type. -/
theorem applySubst_tag_shape {fuel : Nat} {σ : Subst} {tg : String} {args : List Ty}
    {u : Ty} (h : applySubstF fuel σ (.TTag tg args) = some u) :
    ∃ args2, u = .TTag tg args2 := by
  cases fuel with
  | zero => simp [applySubstF] at h
  | succ f =>
    simp only [applySubstF, Option.bind_eq_bind] at h
    cases h2 : applySubstListF f σ args with
    | none => rw [h2] at h; simp at h
    | some l => rw [h2] at h; simp at h; exact ⟨l, h.symm⟩

theorem mentionsCov_var_inv {v vid : Nat} (h : MentionsCov v (.TVar vid)) : vid = v := by
  cases h; rfl

/-- C3 (amended): the occurs check covers function, list, tuple, result
and record-field positions: for any variable v and any type t other than
v itself that mentions v in such a covered position, unifying v with t
from the empty substitution fails with "infinite type". (It does NOT
cover tag-type arguments or record row-rest variables; see the
counterexample, where such unifications succeed with a cyclic binding.) -/
theorem claim_C3 {v : Nat} {t : Ty} {fuel : Nat}
    (hm : MentionsCov v t) (hne : t ≠ .TVar v) (hf : sizeOf t + 1 < fuel) :
    unifyF fuel (.TVar v) t [] = .err "infinite type" := by
  cases fuel with
  | zero => omega
  | succ f =>
    have h1 : applySubstF f [] (.TVar v) = some (.TVar v) :=
      applySubst_nil_var (by omega) v
    have h2 : applySubstF f [] t = some t :=
      (applySubst_nil_all f).1 t (by omega)
    have hocc : occursInF f v t [] = some true :=
      occursIn_nil_of_mentionsCov hm f (by omega)
    cases t with
    | TVar vid => exact absurd (congrArg Ty.TVar (mentionsCov_var_inv hm)) hne
    | TCon name => simp [unifyF, h1, h2, bindVarF, hocc]
    | TFn p r => simp [unifyF, h1, h2, bindVarF, hocc]
    | TList e => simp [unifyF, h1, h2, bindVarF, hocc]
    | TTuple es => simp [unifyF, h1, h2, bindVarF, hocc]
    | TRecord fs rest => simp [unifyF, h1, h2, bindVarF, hocc]
    | TResult o => simp [unifyF, h1, h2, bindVarF, hocc]
    | TTag tag args => simp [unifyF, h1, h2, bindVarF, hocc]

/-- C2 (amended): `unify` has no case for a pair of tag types, so any two
tag types whose substitution walks succeed — including an identical
zero-argument tag against itself — fall through every clause to the final
throw "Cannot unify TTag with TTag"; tag types never unify. -/
theorem claim_C2 {fuel : Nat} {σ : Subst} {tg1 tg2 : String}
    {args1 args2 : List Ty} {u1 u2 : Ty}
    (h1 : applySubstF fuel σ (.TTag tg1 args1) = some u1)
    (h2 : applySubstF fuel σ (.TTag tg2 args2) = some u2) :
    unifyF (fuel + 1) (.TTag tg1 args1) (.TTag tg2 args2) σ =
      .err "Cannot unify TTag with TTag" := by
  obtain ⟨l1, rfl⟩ := applySubst_tag_shape h1
  obtain ⟨l2, rfl⟩ := applySubst_tag_shape h2
  simp [unifyF, h1, h2, tyKindName]

set_option maxHeartbeats 2000000 in
example : inferF 100 progFib [] = .err "Undefined variable: fib" := by rfl

set_option maxHeartbeats 4000000 in
example : runSourceF 100 srcFib = .output "55" := by rfl

theorem exbind_ok {ε α β : Type} (x : Except ε α) (f : α → Except ε β) (b : β) :
    (x >>= f = .ok b) ↔ ∃ a, x = .ok a ∧ f a = .ok b := by
  cases x with
  | ok a => simp [Bind.bind, Except.bind]
  | error e => simp [Bind.bind, Except.bind]

theorem expure_ok {ε α : Type} (a b : α) :
    ((pure a : Except ε α) = .ok b) ↔ a = b := by
  simp [pure, Except.pure]

theorem expectT_ok {k : TokenKind} {toks : List Tok} {t : Tok} {rest : List Tok}
    (h : expectT k toks = .ok (t, rest)) : rest = toks.drop 1 := by
  simp only [expectT] at h
  split at h <;> simp_all

theorem noIf_foldr_fn (ps : List String) (body : Expr) (h : NoIf body) :
    NoIf (ps.foldr (fun p acc => Expr.Fn p acc) body) := by
  induction ps with
  | nil => exact h
  | cons p ps ih => exact .fn ih

theorem noIf_foldl_call (args : List Expr) :
    ∀ fnE, NoIf fnE → (∀ a ∈ args, NoIf a) →
      NoIf (args.foldl (fun acc a => Expr.Call acc a) fnE) := by
  induction args with
  | nil => intro fnE h _; exact h
  | cons a args ih =>
    intro fnE h hall
    exact ih _ (.call h (hall a (by simp))) (fun x hx => hall x (by simp [hx]))

theorem exbind_ok_l {ε α β : Type} {x : α} {f : α → Except ε β} :
    (Except.ok x : Except ε α) >>= f = f x := rfl

theorem exbind_err_l {ε α β : Type} {m : ε} {f : α → Except ε β} :
    (Except.error m : Except ε α) >>= f = .error m := rfl

set_option maxHeartbeats 1000000 in
/-- Simultaneous statement over the parser's mutual functions: every
successfully parsed expression is `If`-free. -/
theorem parser_noIf_all : ∀ fuel,
    (∀ minBp toks e rest, parseExprF fuel minBp toks = .ok (e, rest) → NoIf e) ∧
    (∀ minBp left toks e rest, parseLoopF fuel minBp left toks = .ok (e, rest) → NoIf left → NoIf e) ∧
    (∀ left bp toks e rest, ledF fuel left bp toks = .ok (e, rest) → NoIf left → NoIf e) ∧
    (∀ toks e rest, nudF fuel toks = .ok (e, rest) → NoIf e) ∧
    (∀ e0 toks e rest, callLoopF fuel e0 toks = .ok (e, rest) → NoIf e0 → NoIf e) ∧
    (∀ e0 toks e rest, parseCallArgsF fuel e0 toks = .ok (e, rest) → NoIf e0 → NoIf e) ∧
    (∀ toks es rest, exprCommaLoopF fuel toks = .ok (es, rest) → ∀ e ∈ es, NoIf e) ∧
    (∀ toks e rest, parseLetF fuel toks = .ok (e, rest) → NoIf e) ∧
    (∀ toks e rest, parseFnF fuel toks = .ok (e, rest) → NoIf e) ∧
    (∀ toks e rest, parseMatchF fuel toks = .ok (e, rest) → NoIf e) ∧
    (∀ toks cs rest, matchCasesF fuel toks = .ok (cs, rest) → ∀ c ∈ cs, NoIf (Prod.snd c)) ∧
    (∀ toks c rest, parseMatchCaseF fuel toks = .ok (c, rest) → NoIf (Prod.snd c)) ∧
    (∀ toks fs rest, recordFieldsF fuel toks = .ok (fs, rest) → ∀ f ∈ fs, NoIf (Prod.snd f)) := by
  intro fuel
  induction fuel with
  | zero =>
    refine ⟨?_, ?_, ?_, ?_, ?_, ?_, ?_, ?_, ?_, ?_, ?_, ?_, ?_⟩ <;>
      intros <;> simp_all [parseExprF, parseLoopF, ledF, nudF, callLoopF,
        parseCallArgsF, exprCommaLoopF, parseLetF, parseFnF, parseMatchF,
        matchCasesF, parseMatchCaseF, recordFieldsF]
  | succ f ih =>
    obtain ⟨ihE, ihLoop, ihLed, ihNud, ihCall, ihArgs, ihComma, ihLet, ihFn,
      ihMatch, ihCases, ihCase, ihFields⟩ := ih
    refine ⟨?_, ?_, ?_, ?_, ?_, ?_, ?_, ?_, ?_, ?_, ?_, ?_, ?_⟩
    -- parseExprF
    · intro minBp toks e rest h
      simp only [parseExprF, exbind_ok] at h
      obtain ⟨⟨e1, toks1⟩, h1, h2⟩ := h
      exact ihLoop _ _ _ _ _ h2 (ihNud _ _ _ h1)
    -- parseLoopF
    · intro minBp left toks e rest h hleft
      simp only [parseLoopF] at h
      split at h
      · exact ihLoop _ _ _ _ _ h (.tryE hleft)
      · split at h
        · simp at h; exact h.1 ▸ hleft
        · split at h
          · simp at h; exact h.1 ▸ hleft
          · simp only [exbind_ok] at h
            obtain ⟨⟨e1, toks1⟩, h1, h2⟩ := h
            exact ihLoop _ _ _ _ _ h2 (ihLed _ _ _ _ _ h1 hleft)
    -- ledF
    · intro left bp toks e rest h hleft
      simp only [ledF] at h
      split at h
      · simp only [exbind_ok] at h
        obtain ⟨⟨t1, toks1⟩, _, h2⟩ := h
        simp at h2
        exact h2.1 ▸ .fieldAccess hleft
      · split at h
        · simp only [exbind_ok] at h
          obtain ⟨⟨r1, toks1⟩, h1, h2⟩ := h
          simp at h2
          exact h2.1 ▸ .pipe hleft (ihE _ _ _ _ h1)
        · split at h
          · simp only [exbind_ok] at h
            obtain ⟨⟨r1, toks1⟩, h1, h2⟩ := h
            simp at h2
            exact h2.1 ▸ .binOp hleft (ihE _ _ _ _ h1)
          · simp at h
    -- nudF
    · intro toks e rest h
      simp only [nudF] at h
      split at h
      · simp at h; exact h.1 ▸ .intLit
      · simp at h; exact h.1 ▸ .floatLit
      · simp at h; exact h.1 ▸ .stringLit
      · simp at h; exact h.1 ▸ .boolLit
      · simp at h; exact h.1 ▸ .boolLit
      · exact ihCall _ _ _ _ h .ident
      · exact ihLet _ _ _ h
      · exact ihFn _ _ _ h
      · exact ihMatch _ _ _ h
      · -- LBracket
        split at h
        · simp at h; exact h.1 ▸ .list (by simp)
        · simp only [exbind_ok] at h
          obtain ⟨⟨els, toks1⟩, h1, h⟩ := h
          obtain ⟨⟨t2, toks2⟩, _, h3⟩ := h
          simp at h3
          exact h3.1 ▸ .list (ihComma _ _ _ h1)
      · -- Catch
        simp only [exbind_ok] at h
        obtain ⟨⟨t1, toks1⟩, _, h⟩ := h
        obtain ⟨⟨t2, toks2⟩, _, h⟩ := h
        obtain ⟨⟨fb, toks3⟩, h3, h4⟩ := h
        simp at h4
        exact h4.1 ▸ .catchE .unitLit (ihE _ _ _ _ h3)
      · -- Bang
        simp only [exbind_ok] at h
        obtain ⟨⟨e1, toks1⟩, h1, h2⟩ := h
        simp at h2
        exact h2.1 ▸ .unaryOp (ihE _ _ _ _ h1)
      · -- Minus
        simp only [exbind_ok] at h
        obtain ⟨⟨e1, toks1⟩, h1, h2⟩ := h
        simp at h2
        exact h2.1 ▸ .unaryOp (ihE _ _ _ _ h1)
      · -- LParen
        split at h
        · simp at h; exact h.1 ▸ .unitLit
        · simp only [exbind_ok] at h
          obtain ⟨⟨first, toks1⟩, h1, h⟩ := h
          split at h
          · simp only [exbind_ok] at h
            obtain ⟨⟨restEls, toks2⟩, h2, h⟩ := h
            obtain ⟨⟨t3, toks3⟩, _, h4⟩ := h
            simp at h4
            refine h4.1 ▸ .tuple ?_
            intro x hx
            rcases List.mem_cons.mp hx with rfl | hx2
            · exact ihE _ _ _ _ h1
            · exact ihComma _ _ _ h2 x hx2
          · simp only [exbind_ok] at h
            obtain ⟨⟨t2, toks2⟩, _, h3⟩ := h
            simp at h3
            exact h3.1 ▸ ihE _ _ _ _ h1
      · -- LBrace
        split at h
        · simp at h; exact h.1 ▸ .record (by simp)
        · simp only [exbind_ok] at h
          obtain ⟨⟨fs1, toks1⟩, h1, h⟩ := h
          obtain ⟨⟨t2, toks2⟩, _, h3⟩ := h
          simp at h3
          exact h3.1 ▸ .record (ihFields _ _ _ h1)
      · -- UpperIdent
        split at h
        · split at h
          · simp at h; exact h.1 ▸ .tag (by simp)
          · simp only [exbind_ok] at h
            obtain ⟨⟨args1, toks1⟩, h1, h⟩ := h
            obtain ⟨⟨t2, toks2⟩, _, h3⟩ := h
            simp at h3
            exact h3.1 ▸ .tag (ihComma _ _ _ h1)
        · simp at h; exact h.1 ▸ .tag (by simp)
      · simp at h
    -- callLoopF
    · intro e0 toks e rest h he0
      simp only [callLoopF] at h
      split at h
      · simp only [exbind_ok] at h
        obtain ⟨⟨e1, toks1⟩, h1, h2⟩ := h
        exact ihCall _ _ _ _ h2 (ihArgs _ _ _ _ h1 he0)
      · simp at h; exact h.1 ▸ he0
    -- parseCallArgsF
    · intro e0 toks e rest h he0
      simp only [parseCallArgsF, exbind_ok] at h
      obtain ⟨⟨t1, toks1⟩, _, h⟩ := h
      split at h
      · simp at h; exact h.1 ▸ he0
      · simp only [exbind_ok] at h
        obtain ⟨⟨args1, toks2⟩, h2, h⟩ := h
        obtain ⟨⟨t3, toks3⟩, _, h4⟩ := h
        simp at h4
        exact h4.1 ▸ noIf_foldl_call _ _ he0 (ihComma _ _ _ h2)
    -- exprCommaLoopF
    · intro toks es rest h
      simp only [exprCommaLoopF, exbind_ok] at h
      obtain ⟨⟨e1, toks1⟩, h1, h⟩ := h
      split at h
      · simp only [exbind_ok] at h
        obtain ⟨⟨es2, toks2⟩, h2, h3⟩ := h
        simp at h3
        intro x hx
        rw [← h3.1] at hx
        rcases List.mem_cons.mp hx with rfl | hx2
        · exact ihE _ _ _ _ h1
        · exact ihComma _ _ _ h2 x hx2
      · simp at h
        intro x hx
        rw [← h.1] at hx
        rcases List.mem_singleton.mp hx with rfl
        exact ihE _ _ _ _ h1
    -- parseLetF
    · intro toks e rest h
      simp only [parseLetF, exbind_ok] at h
      obtain ⟨⟨t1, toks1⟩, _, h⟩ := h
      obtain ⟨⟨t2, toks2⟩, _, h⟩ := h
      obtain ⟨⟨t3, toks3⟩, _, h⟩ := h
      obtain ⟨⟨v1, toks4⟩, h4, h⟩ := h
      obtain ⟨⟨t5, toks5⟩, _, h⟩ := h
      obtain ⟨⟨b1, toks6⟩, h6, h7⟩ := h
      simp at h7
      exact h7.1 ▸ .letE (ihE _ _ _ _ h4) (ihE _ _ _ _ h6)
    -- parseFnF
    · intro toks e rest h
      simp only [parseFnF] at h
      cases h1 : expectT .Fn toks with
      | error e1 => rw [h1] at h; simp [exbind_err_l] at h
      | ok r1 =>
        rw [h1] at h
        simp only [exbind_ok_l] at h
        split at h
        · split at h
          · simp only [exbind_ok, pure_bind, expure_ok] at h
            obtain ⟨⟨t3, toks3⟩, _, ⟨⟨body1, toks4⟩, h4, h5⟩⟩ := h
            simp at h5
            exact h5.1 ▸ .fn (ihE _ _ _ _ h4)
          · simp only [exbind_ok, pure_bind, expure_ok] at h
            obtain ⟨⟨ps, toks2⟩, _, ⟨⟨t2b, toks2b⟩, _,
              ⟨⟨t3, toks3⟩, _, ⟨⟨body1, toks4⟩, h4, h5⟩⟩⟩⟩ := h
            simp at h5
            exact h5.1 ▸ .fn (noIf_foldr_fn _ _ (ihE _ _ _ _ h4))
        · simp only [exbind_ok, pure_bind, expure_ok] at h
          obtain ⟨⟨t2, toks2⟩, _,
            ⟨⟨t3, toks3⟩, _, ⟨⟨body1, toks4⟩, h4, h5⟩⟩⟩ := h
          simp at h5
          exact h5.1 ▸ .fn (ihE _ _ _ _ h4)
    -- parseMatchF
    · intro toks e rest h
      simp only [parseMatchF] at h
      cases h1 : expectT .Match toks with
      | error e1 => rw [h1] at h; simp [exbind_err_l] at h
      | ok r1 =>
        rw [h1] at h
        simp only [exbind_ok_l] at h
        simp only [exbind_ok] at h
        obtain ⟨⟨subj, toks2⟩, h2, h⟩ := h
        simp only [exbind_ok] at h
        obtain ⟨⟨t3, toks3⟩, _, h⟩ := h
        split at h
        · simp only [exbind_ok, pure_bind, expure_ok] at h
          obtain ⟨⟨t5, toks5⟩, _, h6⟩ := h
          simp at h6
          exact h6.1 ▸ .matchE (ihE _ _ _ _ h2) (by simp)
        · simp only [exbind_ok, pure_bind, expure_ok] at h
          obtain ⟨⟨cs1, toks4⟩, h4, ⟨⟨t5, toks5⟩, _, h6⟩⟩ := h
          simp at h6
          exact h6.1 ▸ .matchE (ihE _ _ _ _ h2) (fun c hc => ihCases _ _ _ h4 c hc)
    -- matchCasesF
    · intro toks cs rest h
      simp only [matchCasesF, exbind_ok] at h
      obtain ⟨⟨c1, toks1⟩, h1, h⟩ := h
      split at h
      · split at h
        · simp at h
          intro c hc
          rw [← h.1] at hc
          rcases List.mem_singleton.mp hc with rfl
          exact ihCase _ _ _ h1
        · simp only [exbind_ok] at h
          obtain ⟨⟨cs2, toks2⟩, h2, h3⟩ := h
          simp at h3
          intro c hc
          rw [← h3.1] at hc
          rcases List.mem_cons.mp hc with rfl | hc2
          · exact ihCase _ _ _ h1
          · exact ihCases _ _ _ h2 c hc2
      · simp at h
        intro c hc
        rw [← h.1] at hc
        rcases List.mem_singleton.mp hc with rfl
        exact ihCase _ _ _ h1
    -- parseMatchCaseF
    · intro toks c rest h
      simp only [parseMatchCaseF, exbind_ok] at h
      obtain ⟨⟨p1, toks1⟩, _, h⟩ := h
      obtain ⟨⟨t2, toks2⟩, _, h⟩ := h
      obtain ⟨⟨b1, toks3⟩, h3, h4⟩ := h
      simp at h4
      rw [← h4.1]
      exact ihE _ _ _ _ h3
    -- recordFieldsF
    · intro toks fs rest h
      simp only [recordFieldsF, exbind_ok] at h
      obtain ⟨⟨t1, toks1⟩, _, h⟩ := h
      obtain ⟨⟨t2, toks2⟩, _, h⟩ := h
      obtain ⟨⟨v1, toks3⟩, h3, h⟩ := h
      split at h
      · split at h
        · simp at h
          intro x hx
          rw [← h.1] at hx
          rcases List.mem_singleton.mp hx with rfl
          exact ihE _ _ _ _ h3
        · simp only [exbind_ok] at h
          obtain ⟨⟨fs2, toks4⟩, h4, h5⟩ := h
          simp at h5
          intro x hx
          rw [← h5.1] at hx
          rcases List.mem_cons.mp hx with rfl | hx2
          · exact ihE _ _ _ _ h3
          · exact ihFields _ _ _ h4 x hx2
      · simp at h
        intro x hx
        rw [← h.1] at hx
        rcases List.mem_singleton.mp hx with rfl
        exact ihE _ _ _ _ h3

/-- C1: the program `let parse = fn(s) -> match s { "1" -> Ok(1), _ ->
Err("bad") } in "bad" |> parse? |> fn n -> n * 2 |> catch e -> 0`, lexed
and parsed, evaluates in every environment to the integer 0: the
early-return transfer raised by `parse?` on the `Err` value propagates
past the lambda pipe stage and is caught by the trailing recovery binder,
whose fallback runs with the error parameter bound to "bad". -/
theorem claim_C1 :
    lexParse 100 srcCatchPipeline = .ok progC1 ∧
    ∀ env : Env, evaluateF 20 progC1 env = .ok (.Int 0) := by
  refine ⟨by rfl, fun env => ?_⟩
  simp only [progC1, evaluateF, evalExprF, applyFnF, evalMatchF, evalListF,
    matchPatternF, matchListF, alookup, tryUnwrap, catchClass, catchClassEarly,
    evalBinOp, intIntOp, floatFloatOp, mixedOp, numVal,
    EvalRes.bind_ok, EvalRes.bind_early, EvalRes.bind_err, EvalRes.bind_fuelOut,
    EvalRes.pure_eq_ok, String.reduceEq, reduceIte, ite_true, ite_false,
    List.length_cons, List.length_nil, Nat.reduceAdd, Int.reduceMul]

/-- C4: `x |> fn n -> n * 2 |> g` parses with the lambda body stopping
before the second pipe — `Pipe(Pipe(x, fn n -> n * 2), g)` — and not with
the pipe swallowed into the body. -/
theorem claim_C4 :
    lexParse 100 "x |> fn n -> n * 2 |> g" = .ok
      (.Pipe (.Pipe (.Ident "x") (.Fn "n" (.BinOp "*" (.Ident "n") (.IntLit 2))))
        (.Ident "g")) ∧
    lexParse 100 "x |> fn n -> n * 2 |> g" ≠ .ok
      (.Pipe (.Ident "x")
        (.Fn "n" (.Pipe (.BinOp "*" (.Ident "n") (.IntLit 2)) (.Ident "g")))) := by
  have h1 : lexParse 100 "x |> fn n -> n * 2 |> g" = .ok
      (.Pipe (.Pipe (.Ident "x") (.Fn "n" (.BinOp "*" (.Ident "n") (.IntLit 2))))
        (.Ident "g")) := by rfl
  refine ⟨h1, ?_⟩
  rw [h1]
  intro h
  simp at h

/-- C5: the program `let rec fib = fn(n) -> match n <= 1 { true -> n,
false -> fib(n-1) + fib(n-2) } in fib(10)`, lexed and parsed, evaluates in
every environment to 55; the recursive-binding fixup installs the
closure's self-reference so the recursive calls resolve. -/
theorem claim_C5 :
    lexParse 100 srcFib = .ok progFib ∧
    ∀ env : Env, evaluateF 100 progFib env = .ok (.Int 55) := by
  refine ⟨by rfl, fun env => ?_⟩
  simp only [progFib, fibBody, evaluateF, evalExprF, alookup, EvalRes.bind_ok,
    String.reduceEq, reduceIte, ite_true, ite_false, fibApp10]

/-- C6 counterexample: the claim includes `%`, but `evalBinOp` on a mixed
integer/float `%` reaches the final throw instead of promoting to float. -/
theorem claim_C6_cex :
    evalBinOp "%" (.Int 5) (.Float (5 / 2 : Rat)) =
      .err "Cannot apply operator % to Int and Float" := by rfl

/-- C6 (amended): for the four operators `+ - * /`, mixed integer/float
operands (either order) promote to a float result; `%` on mixed operands
raises the runtime operator-mismatch error instead. -/
theorem claim_C6 :
    (∀ op : String, (op = "+" ∨ op = "-" ∨ op = "*" ∨ op = "/") →
      ∀ (i : Int) (q : Rat),
        (∃ x : Rat, evalBinOp op (.Int i) (.Float q) = .ok (.Float x)) ∧
        (∃ x : Rat, evalBinOp op (.Float q) (.Int i) = .ok (.Float x))) ∧
    (∀ (i : Int) (q : Rat),
      evalBinOp "%" (.Int i) (.Float q) =
        .err "Cannot apply operator % to Int and Float" ∧
      evalBinOp "%" (.Float q) (.Int i) =
        .err "Cannot apply operator % to Float and Int") := by
  constructor
  · intro op hop i q
    rcases hop with rfl | rfl | rfl | rfl
    · exact ⟨⟨(i : Rat) + q, by simp [evalBinOp, mixedOp, numVal]⟩,
             ⟨q + (i : Rat), by simp [evalBinOp, mixedOp, numVal]⟩⟩
    · exact ⟨⟨(i : Rat) - q, by simp [evalBinOp, mixedOp, numVal]⟩,
             ⟨q - (i : Rat), by simp [evalBinOp, mixedOp, numVal]⟩⟩
    · exact ⟨⟨(i : Rat) * q, by simp [evalBinOp, mixedOp, numVal]⟩,
             ⟨q * (i : Rat), by simp [evalBinOp, mixedOp, numVal]⟩⟩
    · exact ⟨⟨(i : Rat) / q, by simp [evalBinOp, mixedOp, numVal]⟩,
             ⟨q / (i : Rat), by simp [evalBinOp, mixedOp, numVal]⟩⟩
  · intro i q
    exact ⟨by simp [evalBinOp, mixedOp, numVal, valueKindName],
           by simp [evalBinOp, mixedOp, numVal, valueKindName]⟩

theorem claim_C6_witness :
    (∃ x : Rat, evalBinOp "+" (.Int 1) (.Float 2) = .ok (.Float x)) ∧
    (∃ x : Rat, evalBinOp "+" (.Float 2) (.Int 1) = .ok (.Float x)) :=
  claim_C6.1 "+" (Or.inl rfl) 1 2

/-- C10: an early-return transfer that escapes to the top level makes
`evaluate` return the carried `Err` tag value as the program's result; in
particular `Err("x")?` evaluates to the value `Err("x")`. -/
theorem claim_C10 :
    (∀ fuel (e : Expr) (env : Env) (v : Value),
      evalExprF fuel e env = .early v → evaluateF fuel e env = .ok v) ∧
    lexParse 100 "Err(\x22x\x22)?" = .ok (.Try (.Tag "Err" [.StringLit "x"])) ∧
    evaluateF 10 (.Try (.Tag "Err" [.StringLit "x"])) [] =
      .ok (.Tag "Err" [.String "x"]) := by
  refine ⟨fun fuel e env v h => ?_, by rfl, by rfl⟩
  simp [evaluateF, h]

theorem claim_C10_witness :
    evaluateF 10 (.Try (.Tag "Err" [.StringLit "x"])) [] =
      .ok (.Tag "Err" [.String "x"]) :=
  claim_C10.1 10 (.Try (.Tag "Err" [.StringLit "x"])) [] (.Tag "Err" [.String "x"])
    (by rfl)

/-- C2 counterexample: the spec's claimed structural tag rule would unify
`None` with `None` (same constructor, no arguments) and succeed; the code
instead throws. -/
theorem claim_C2_cex :
    unifyF 10 (.TTag "None" []) (.TTag "None" []) [] =
      .err "Cannot unify TTag with TTag" := by rfl

theorem claim_C2_witness :
    unifyF 10 (.TTag "Some" [.TCon "Int"]) (.TTag "Some" [.TCon "Int"]) [] =
      .err "Cannot unify TTag with TTag" :=
  @claim_C2 9 [] "Some" "Some" [.TCon "Int"] [.TCon "Int"]
    (.TTag "Some" [.TCon "Int"]) (.TTag "Some" [.TCon "Int"]) (by rfl) (by rfl)

/-- C3 counterexample: the occurs check misses tag-argument and record
row-rest positions, so unifying a variable with a tag type or open record
that contains it succeeds and records a cyclic substitution binding. -/
theorem claim_C3_cex :
    unifyF 10 (.TVar 0) (.TTag "C" [.TVar 0]) [] =
      .ok [(0, .TTag "C" [.TVar 0])] ∧
    Mentions 0 (.TTag "C" [.TVar 0]) ∧
    unifyF 10 (.TVar 0) (.TRecord [] (some (.TVar 0))) [] =
      .ok [(0, .TRecord [] (some (.TVar 0)))] ∧
    Mentions 0 (.TRecord [] (some (.TVar 0))) := by
  refine ⟨by rfl, ?_, by rfl, ?_⟩
  · exact .tagArg (by simp) .var
  · exact .recordRest .var

theorem claim_C3_witness :
    unifyF 1000 (.TVar 0) (.TList (.TVar 0)) [] = .err "infinite type" :=
  claim_C3 (.list .var) (fun h => Ty.noConfusion h)
    (by simp only [Ty.TList.sizeOf_spec, Ty.TVar.sizeOf_spec, sizeOf_nat]; omega)

set_option maxHeartbeats 8000000 in
/-- C8: the Let rule infers the bound value's type in an environment that
does not yet contain the bound name, so a value-side type error —
including the undefined-variable error produced when the recursive name
is looked up unbound — propagates out of `let rec f = v in b`; on the fib
program inference fails with "Undefined variable: fib", yet the end-to-end
runner, which discards inference failures whose message contains
"Undefined variable", still outputs "55". -/
theorem claim_C8 :
    (∀ (fuel : Nat) (name : String) (value body : Expr) (env : TypeEnv)
        (subst : Subst) (n : Nat) (m : String),
      inferExprF fuel value env subst n = .err m →
      inferExprF (fuel + 1) (.Let name value body true) env subst n = .err m) ∧
    (∀ (fuel : Nat) (name : String) (env : TypeEnv) (subst : Subst) (n : Nat),
      alookup env name = none →
      inferExprF (fuel + 1) (.Ident name) env subst n =
        .err ("Undefined variable: " ++ name)) ∧
    inferF 100 progFib [] = .err "Undefined variable: fib" ∧
    runSourceF 100 srcFib = .output "55" := by
  refine ⟨?_, ?_, by rfl, by rfl⟩
  · intro fuel name value body env subst n m h
    simp only [inferExprF, h]
  · intro fuel name env subst n h
    simp only [inferExprF, h]

theorem claim_C8_witness :
    inferExprF 2 (.Let "f" (.Ident "f") (.IntLit 0) true) [] [] 0 =
      .err "Undefined variable: f" :=
  claim_C8.1 1 "f" (.Ident "f") (.IntLit 0) [] [] 0 "Undefined variable: f"
    (claim_C8.2.1 0 "f" [] [] 0 rfl)

/-- C9: `if` lexes to the keyword token If; the parser's prefix
dispatcher has no rule for that token, so any token stream whose
expression position holds an If token fails with the unexpected-token
parse error; consequently (with the parser's other entry points covered
by the same induction) no successfully parsed expression contains an If
node. -/
theorem claim_C9 :
    lex "if".toList = .ok [(.If, ['i', 'f']), (.EOF, [])] ∧
    (∀ (fuel : Nat) (lexeme : List Char) (rest : List Tok),
      nudF (fuel + 1) ((.If, lexeme) :: rest) =
        .error ("Unexpected token " ++ kindName .If)) ∧
    (∀ (fuel minBp : Nat) (toks : List Tok) (e : Expr) (rest : List Tok),
      parseExprF fuel minBp toks = .ok (e, rest) → NoIf e) := by
  refine ⟨by rfl, ?_, ?_⟩
  · intro fuel lexeme rest
    simp only [nudF, peekT]
  · intro fuel minBp toks e rest h
    exact (parser_noIf_all fuel).1 minBp toks e rest h

theorem claim_C9_witness :
    NoIf (Expr.IntLit 7) ∧
    nudF 5 [(.If, ['i', 'f']), (.EOF, [])] =
      .error ("Unexpected token " ++ kindName .If) :=
  ⟨claim_C9.2.2 9 0 [(.Int, ['7']), (.EOF, [])] (.IntLit 7) [(.EOF, [])] (by rfl),
   claim_C9.2.1 4 ['i', 'f'] [(.EOF, [])]⟩

theorem notWs_of_ge {c : Char} (h : '!' ≤ c) : isWs c = false := by
  have h1 : c ≠ ' ' := by rintro rfl; revert h; decide
  have h2 : c ≠ '\t' := by rintro rfl; revert h; decide
  have h3 : c ≠ '\n' := by rintro rfl; revert h; decide
  have h4 : c ≠ '\r' := by rintro rfl; revert h; decide
  simp [isWs, h1, h2, h3, h4]

theorem digit_facts {c : Char} (h : isDigit c = true) :
    isWs c = false ∧ c ≠ '-' := by
  simp only [isDigit, Bool.and_eq_true, decide_eq_true_eq] at h
  obtain ⟨h0, _⟩ := h
  refine ⟨notWs_of_ge (le_trans (by decide) h0), ?_⟩
  rintro rfl; revert h0; decide

theorem alpha_facts {c : Char} (h : isAlpha c = true) :
    isWs c = false ∧ c ≠ '-' ∧ isDigit c = false ∧ c ≠ '"' := by
  simp only [isAlpha, Bool.or_eq_true, Bool.and_eq_true, decide_eq_true_eq] at h
  have hd : isDigit c = false → True := fun _ => trivial
  rcases h with (⟨h1, h2⟩ | ⟨h1, h2⟩) | h1
  · refine ⟨notWs_of_ge (le_trans (by decide) h1), ?_, ?_, ?_⟩
    · rintro rfl; revert h1; decide
    · simp only [isDigit, Bool.and_eq_false_iff, decide_eq_false_iff_not]
      right; intro hle; exact absurd (le_trans h1 hle) (by decide)
    · rintro rfl; revert h1; decide
  · refine ⟨notWs_of_ge (le_trans (by decide) h1), ?_, ?_, ?_⟩
    · rintro rfl; revert h1; decide
    · simp only [isDigit, Bool.and_eq_false_iff, decide_eq_false_iff_not]
      right; intro hle; exact absurd (le_trans h1 hle) (by decide)
    · rintro rfl; revert h1; decide
  · subst h1; refine ⟨by decide, by decide, by decide, by decide⟩

theorem skipWs_start {c : Char} (cs : List Char) (h1 : isWs c = false)
    (h2 : c ≠ '-') : skipWs (c :: cs) = c :: cs := by
  simp [skipWs, skipWsA, h1, h2]

theorem takeWhile_append_stop {p : Char → Bool} :
    ∀ (a r : List Char), (∀ x ∈ a, p x = true) →
      (∀ y ∈ r.head?, p y = false) →
      (a ++ r).takeWhile p = a ∧ (a ++ r).dropWhile p = r := by
  intro a r ha hr
  induction a with
  | nil =>
    simp only [List.nil_append]
    cases r with
    | nil => simp
    | cons y r2 =>
      have hy := hr y (by simp)
      simp [List.takeWhile, List.dropWhile, hy]
  | cons x a2 ih =>
    have hx := ha x (by simp)
    obtain ⟨ih1, ih2⟩ := ih (fun z hz => ha z (by simp [hz]))
    simp [List.takeWhile, List.dropWhile, hx, ih1, ih2]

theorem head_sep_facts {r : List Char} (hr : SepOk r) (p : Char → Bool)
    (hp : p ' ' = false) : ∀ y ∈ r.head?, p y = false := by
  rcases hr with rfl | ⟨r2, rfl⟩
  · intro y hy; simp at hy
  · intro y hy; simp at hy; subst hy; exact hp

theorem readNumber_digits {a r : List Char} (ha : ∀ x ∈ a, isDigit x = true)
    (hr : SepOk r) : readNumber (a ++ r) = (a, false, r) := by
  obtain ⟨ht, hd⟩ :=
    takeWhile_append_stop a r ha (head_sep_facts hr isDigit (by decide))
  simp only [readNumber, ht, hd]
  rcases hr with rfl | ⟨r2, rfl⟩
  · rfl
  · rfl

theorem readNumber_float {a b r : List Char} (ha : ∀ x ∈ a, isDigit x = true)
    (hb : ∀ x ∈ b, isDigit x = true) (hnb : b ≠ [])
    (hr : SepOk r) : readNumber (a ++ '.' :: b ++ r) = (a ++ '.' :: b, true, r) := by
  obtain ⟨ht, hd⟩ := takeWhile_append_stop a ('.' :: (b ++ r)) ha
    (by intro y hy; simp at hy; subst hy; decide)
  obtain ⟨htb, hdb⟩ :=
    takeWhile_append_stop b r hb (head_sep_facts hr isDigit (by decide))
  cases b with
  | nil => exact absurd rfl hnb
  | cons b0 b2 =>
    have hb0 : isDigit b0 = true := hb b0 (by simp)
    simp only [List.append_assoc, List.cons_append] at ht hd ⊢
    simp only [readNumber, ht, hd, hb0, if_true]
    simp only [List.cons_append] at htb hdb
    rw [htb, hdb]

theorem readStrBody_sound : ∀ {cs content rest : List Char},
    readStrBody cs = some (content, rest) → strTail (content ++ ['"']) = true := by
  intro cs
  induction cs with
  | nil => intro content rest h; simp [readStrBody] at h
  | cons c cs2 ih =>
    intro content rest h
    simp only [readStrBody] at h
    split_ifs at h with hq hn
    · simp only [Option.some.injEq, Prod.mk.injEq] at h
      obtain ⟨rfl, rfl⟩ := h
      rfl
    · cases hrec : readStrBody cs2 with
      | none => rw [hrec] at h; simp at h
      | some pr =>
        obtain ⟨ct, r⟩ := pr
        rw [hrec] at h
        simp only [Option.some.injEq, Prod.mk.injEq] at h
        obtain ⟨rfl, rfl⟩ := h
        have ihh := ih hrec
        rw [List.cons_append]
        rcases hsh : ct ++ ['"'] with _ | ⟨x, xs⟩
        · exact absurd hsh (by simp)
        · rw [hsh] at ihh
          simp only [strTail, hq, hn, if_false]
          exact ihh

theorem strTail_rt : ∀ (body : List Char), strTail body = true →
    ∀ r, ∃ content, readStrBody (body ++ r) = some (content, r) ∧
      content ++ ['"'] = body := by
  intro body
  induction body with
  | nil => intro h; simp [strTail] at h
  | cons c tail ih =>
    intro h r
    cases tail with
    | nil =>
      simp only [strTail, decide_eq_true_eq] at h
      subst h
      exact ⟨[], by simp [readStrBody], rfl⟩
    | cons x xs =>
      simp only [strTail] at h
      by_cases hq : c = '"'
      · rw [if_pos hq] at h; simp at h
      · rw [if_neg hq] at h
        by_cases hn : c = '\n'
        · rw [if_pos hn] at h; simp at h
        · rw [if_neg hn] at h
          obtain ⟨content, hrec, hct⟩ := ih h r
          refine ⟨c :: content, ?_, by rw [List.cons_append, hct]⟩
          rw [List.cons_append, readStrBody, if_neg hq, if_neg hn, hrec]

theorem ne_nil_of_isEmpty_false {α : Type} {l : List α} (h : l.isEmpty = false) :
    l ≠ [] := by
  cases l with
  | nil => simp at h
  | cons a l2 => simp

theorem lexStep_good {k : TokenKind} {lx : List Char} (hg : GoodTok (k, lx))
    {r : List Char} (hr : SepOk r) :
    skipWs (lx ++ r) = lx ++ r ∧ lexStep (lx ++ r) = .ok (some ((k, lx), r)) := by
  rcases hg with ⟨rfl, hne, hdig⟩ | ⟨rfl, hf⟩ | ⟨rfl, body, rfl, hs⟩ | hk
    | ⟨rfl, rfl⟩ | ⟨rfl, hu⟩ | ⟨rfl, hi⟩ | ⟨a, b, rfl, hop⟩ | ⟨a, rfl, hop⟩
  · -- Int
    obtain ⟨c, lx2, rfl⟩ := List.exists_cons_of_ne_nil hne
    simp only [List.all_cons, Bool.and_eq_true] at hdig
    obtain ⟨hc, hrest⟩ := hdig
    obtain ⟨hws, hm⟩ := digit_facts hc
    have hrn : readNumber ((c :: lx2) ++ r) = (c :: lx2, false, r) :=
      readNumber_digits
        (by intro y hy
            rcases List.mem_cons.mp hy with rfl | hy2
            · exact hc
            · exact List.all_eq_true.mp hrest y hy2) hr
    rw [List.cons_append] at hrn
    refine ⟨by rw [List.cons_append]; exact skipWs_start _ hws hm, ?_⟩
    simp only [List.cons_append, lexStep, hc, if_true, hrn, Bool.false_eq_true,
      if_false]
  · -- Float
    unfold floatLexOk at hf
    split at hf
    case _ x b heq =>
      simp only [Bool.and_eq_true, Bool.not_eq_true'] at hf
      obtain ⟨⟨haE, hbE⟩, hball⟩ := hf
      have hlx : List.takeWhile isDigit lx ++ '.' :: b = lx := by
        conv_rhs => rw [← List.takeWhile_append_dropWhile isDigit lx, heq]
      have hca : ∀ y ∈ List.takeWhile isDigit lx, isDigit y = true :=
        fun y hy => List.mem_takeWhile_imp hy
      generalize hA : List.takeWhile isDigit lx = a at hlx hca haE
      have hane := ne_nil_of_isEmpty_false haE
      have hbne := ne_nil_of_isEmpty_false hbE
      have hcb : ∀ y ∈ b, isDigit y = true := List.all_eq_true.mp hball
      obtain ⟨c, a2, rfl⟩ := List.exists_cons_of_ne_nil hane
      have hc : isDigit c = true := hca c (by simp)
      obtain ⟨hws, hm⟩ := digit_facts hc
      have hrn := readNumber_float hca hcb hbne hr
      rw [← hlx]
      constructor
      · simp only [List.cons_append, List.append_assoc]
        exact skipWs_start _ hws hm
      · simp only [List.cons_append, List.append_assoc] at hrn ⊢
        simp only [lexStep, hc, if_true, hrn, eq_self_iff_true, reduceIte]
    case _ x hnb => simp at hf
  · -- String
    obtain ⟨content, hrb, hcb⟩ := strTail_rt body hs r
    constructor
    · rw [List.cons_append]; rfl
    · have hd : isDigit '"' = false := rfl
      simp only [List.cons_append, lexStep, hd, Bool.false_eq_true, if_false,
        ite_false]
      rw [if_pos trivial, hrb]
      simp [hcb]
  · -- keyword
    obtain ⟨p, hp, hk2⟩ := Option.map_eq_some'.mp hk
    have hlx : p.1 = lx := by simpa using List.find?_some hp
    have hmem := List.mem_of_find?_eq_some hp
    subst hk2
    subst hlx
    simp only [KEYWORDS, List.mem_cons, List.mem_singleton,
      List.not_mem_nil, or_false] at hmem
    rcases hmem with rfl | rfl | rfl | rfl | rfl | rfl | rfl | rfl | rfl <;>
      (rcases hr with rfl | ⟨r2, rfl⟩ <;> exact ⟨rfl, rfl⟩)
  · -- Underscore
    rcases hr with rfl | ⟨r2, rfl⟩ <;> exact ⟨rfl, rfl⟩
  · -- UpperIdent
    cases lx with
    | nil => simp [upperLexOk] at hu
    | cons c rest =>
      simp only [upperLexOk, Bool.and_eq_true, decide_eq_true_eq,
        Option.isNone_iff_eq_none] at hu
      obtain ⟨⟨⟨h1, h2⟩, hall⟩, hkw⟩ := hu
      have halpha : isAlpha c = true := by
        simp only [isAlpha, Bool.or_eq_true, Bool.and_eq_true, decide_eq_true_eq]
        exact Or.inl (Or.inr ⟨h1, h2⟩)
      obtain ⟨hws, hm, hd, hq⟩ := alpha_facts halpha
      have hus : c ≠ '_' := by rintro rfl; revert h2; decide
      obtain ⟨ht, hd2⟩ := takeWhile_append_stop (c :: rest) r
        (List.all_eq_true.mp hall)
        (head_sep_facts hr isAlphaNumeric (by decide))
      rw [List.cons_append] at ht hd2
      refine ⟨by rw [List.cons_append]; exact skipWs_start _ hws hm, ?_⟩
      simp only [List.cons_append, lexStep]
      rw [if_neg (by simp [hd]), if_neg hq, if_neg (by simp [hus]),
        if_pos halpha]
      simp only [ht, hd2, hkw]
      rw [if_pos (by simp [h1, h2])]
  · -- Ident
    cases lx with
    | nil => simp [identLexOk] at hi
    | cons c rest =>
      simp only [identLexOk, Bool.and_eq_true, Bool.not_eq_true',
        Option.isNone_iff_eq_none] at hi
      obtain ⟨⟨⟨⟨halpha, hnu⟩, hall⟩, hkw⟩, hnus⟩ := hi
      obtain ⟨hws, hm, hd, hq⟩ := alpha_facts halpha
      obtain ⟨ht, hd2⟩ := takeWhile_append_stop (c :: rest) r
        (List.all_eq_true.mp hall)
        (head_sep_facts hr isAlphaNumeric (by decide))
      rw [List.cons_append] at ht hd2
      have hub : (decide (c = '_') &&
          !(isAlphaNumeric ((rest ++ r).head?.getD '\x00'))) = false := by
        by_cases hcu : c = '_'
        · subst hcu
          cases rest with
          | nil => simp at hnus
          | cons d rest2 =>
            have hdal : isAlphaNumeric d = true :=
              List.all_eq_true.mp hall d (by simp)
            simp [hdal]
        · simp [hcu]
      refine ⟨by rw [List.cons_append]; exact skipWs_start _ hws hm, ?_⟩
      simp only [List.cons_append, lexStep]
      rw [if_neg (by simp [hd]), if_neg hq, if_neg (by rw [hub]; simp),
        if_pos halpha]
      simp only [ht, hd2, hkw]
      rw [if_neg (by simp [hnu])]
  · -- two-character operator
    obtain ⟨p, hp, hk2⟩ := Option.map_eq_some'.mp hop
    have hab : p.1 = (a, b) := by simpa using List.find?_some hp
    have hmem := List.mem_of_find?_eq_some hp
    simp only [TWOCHAR, List.mem_cons, List.not_mem_nil, or_false] at hmem
    rcases hmem with rfl | rfl | rfl | rfl | rfl | rfl | rfl | rfl | rfl <;>
      (obtain ⟨rfl, rfl⟩ := Prod.mk.inj hab
       obtain ⟨rfl, -⟩ := Prod.mk.inj hk2
       rcases hr with rfl | ⟨r2, rfl⟩ <;> exact ⟨rfl, rfl⟩)
  · -- single-character token
    obtain ⟨p, hp, hk2⟩ := Option.map_eq_some'.mp hop
    have ha : p.1 = a := by simpa using List.find?_some hp
    have hmem := List.mem_of_find?_eq_some hp
    simp only [SINGLECHAR, List.mem_cons, List.not_mem_nil, or_false] at hmem
    rcases hmem with rfl | rfl | rfl | rfl | rfl | rfl | rfl | rfl | rfl | rfl
      | rfl | rfl | rfl | rfl | rfl | rfl | rfl | rfl | rfl | rfl <;>
      (subst ha
       subst hk2
       rcases hr with rfl | ⟨r2, rfl⟩ <;> exact ⟨rfl, rfl⟩)

theorem readNumber_good {c : Char} {cs lx rest : List Char} {fl : Bool}
    (hc : isDigit c = true) (h : readNumber (c :: cs) = (lx, fl, rest)) :
    (fl = false → lx ≠ [] ∧ lx.all isDigit = true) ∧
    (fl = true → floatLexOk lx = true) := by
  have hta : List.takeWhile isDigit (c :: cs) = c :: List.takeWhile isDigit cs :=
    List.takeWhile_cons_of_pos hc
  have hall : (List.takeWhile isDigit (c :: cs)).all isDigit = true :=
    List.all_eq_true.mpr (fun x hx => List.mem_takeWhile_imp hx)
  have hne : List.takeWhile isDigit (c :: cs) ≠ [] := by
    rw [hta]; exact List.cons_ne_nil _ _
  unfold readNumber at h
  rcases hdw : List.dropWhile isDigit (c :: cs) with _ | ⟨d, dl⟩
  · rw [hdw] at h
    dsimp only at h
    simp only [Prod.mk.injEq] at h
    obtain ⟨rfl, rfl, rfl⟩ := h
    exact ⟨fun _ => ⟨hne, hall⟩, fun hf => by simp at hf⟩
  · rw [hdw] at h
    dsimp only at h
    by_cases hd : d = '.'
    · subst hd
      rw [if_pos rfl] at h
      rcases dl with _ | ⟨d2, dl2⟩
      · dsimp only at h
        simp only [Prod.mk.injEq] at h
        obtain ⟨rfl, rfl, rfl⟩ := h
        exact ⟨fun _ => ⟨hne, hall⟩, fun hf => by simp at hf⟩
      · dsimp only at h
        by_cases hd2 : isDigit d2 = true
        · rw [if_pos hd2] at h
          simp only [Prod.mk.injEq] at h
          obtain ⟨rfl, rfl, rfl⟩ := h
          refine ⟨fun hf => by simp at hf, fun _ => ?_⟩
          have htb : List.takeWhile isDigit (d2 :: dl2) =
              d2 :: List.takeWhile isDigit dl2 := List.takeWhile_cons_of_pos hd2
          obtain ⟨ht2, hdp2⟩ := takeWhile_append_stop
            (List.takeWhile isDigit (c :: cs))
            ('.' :: List.takeWhile isDigit (d2 :: dl2))
            (fun x hx => List.mem_takeWhile_imp hx)
            (by intro y hy; simp at hy; subst hy; decide)
          have hallb : (List.takeWhile isDigit (d2 :: dl2)).all isDigit = true :=
            List.all_eq_true.mpr (fun x hx => List.mem_takeWhile_imp hx)
          unfold floatLexOk
          rw [hdp2]
          simp [ht2, hta, htb, hallb]
          exact ⟨hc, hd2⟩
        · rw [if_neg hd2] at h
          simp only [Prod.mk.injEq] at h
          obtain ⟨rfl, rfl, rfl⟩ := h
          exact ⟨fun _ => ⟨hne, hall⟩, fun hf => by simp at hf⟩
    · rw [if_neg hd] at h
      simp only [Prod.mk.injEq] at h
      obtain ⟨rfl, rfl, rfl⟩ := h
      exact ⟨fun _ => ⟨hne, hall⟩, fun hf => by simp at hf⟩

theorem lexStep_sound : ∀ {cs : List Char} {k : TokenKind} {lx rest : List Char},
    lexStep cs = .ok (some ((k, lx), rest)) → GoodTok (k, lx) := by
  intro cs k lx rest h
  cases cs with
  | nil => simp [lexStep] at h
  | cons c cs2 =>
    simp only [lexStep] at h
    by_cases h1 : isDigit c = true
    · rw [if_pos h1] at h
      rcases hrn : readNumber (c :: cs2) with ⟨lx0, fl, rest0⟩
      rw [hrn] at h
      dsimp only at h
      simp only [Except.ok.injEq, Option.some.injEq, Prod.mk.injEq] at h
      obtain ⟨⟨rfl, rfl⟩, rfl⟩ := h
      obtain ⟨hint, hfloat⟩ := readNumber_good h1 hrn
      cases fl with
      | false =>
        obtain ⟨hne, hd⟩ := hint rfl
        exact Or.inl ⟨by simp, hne, hd⟩
      | true =>
        exact Or.inr (Or.inl ⟨by simp, hfloat rfl⟩)
    · rw [if_neg h1] at h
      by_cases h2 : c = '"'
      · rw [if_pos h2] at h
        rcases hrs : readStrBody cs2 with _ | ⟨content, rest2⟩
        · rw [hrs] at h; simp at h
        · rw [hrs] at h
          dsimp only at h
          simp only [Except.ok.injEq, Option.some.injEq, Prod.mk.injEq] at h
          obtain ⟨⟨rfl, rfl⟩, rfl⟩ := h
          exact Or.inr (Or.inr (Or.inl ⟨rfl, content ++ ['"'], rfl,
            readStrBody_sound hrs⟩))
      · rw [if_neg h2] at h
        by_cases h3 : (decide (c = '_') &&
            !(isAlphaNumeric (cs2.head?.getD '\x00'))) = true
        · rw [if_pos h3] at h
          simp only [Except.ok.injEq, Option.some.injEq, Prod.mk.injEq] at h
          obtain ⟨⟨rfl, rfl⟩, rfl⟩ := h
          exact Or.inr (Or.inr (Or.inr (Or.inr (Or.inl ⟨rfl, rfl⟩))))
        · rw [if_neg h3] at h
          by_cases h4 : isAlpha c = true
          · rw [if_pos h4] at h
            have hca : isAlphaNumeric c = true := by simp [isAlphaNumeric, h4]
            have htw : List.takeWhile isAlphaNumeric (c :: cs2) =
                c :: List.takeWhile isAlphaNumeric cs2 :=
              List.takeWhile_cons_of_pos hca
            have hallw : (List.takeWhile isAlphaNumeric (c :: cs2)).all
                isAlphaNumeric = true :=
              List.all_eq_true.mpr (fun x hx => List.mem_takeWhile_imp hx)
            rcases hkw : keywordKind (List.takeWhile isAlphaNumeric (c :: cs2))
              with _ | kk
            · rw [hkw] at h
              dsimp only at h
              by_cases h5 : (decide ('A' ≤ c) && decide (c ≤ 'Z')) = true
              · rw [if_pos h5] at h
                simp only [Except.ok.injEq, Option.some.injEq, Prod.mk.injEq] at h
                obtain ⟨⟨rfl, rfl⟩, rfl⟩ := h
                refine Or.inr (Or.inr (Or.inr (Or.inr (Or.inr (Or.inl
                  ⟨rfl, ?_⟩)))))
                rw [htw]
                simp only [upperLexOk]
                rw [← htw, h5, hallw, hkw]
                rfl
              · rw [if_neg h5] at h
                simp only [Except.ok.injEq, Option.some.injEq, Prod.mk.injEq] at h
                obtain ⟨⟨rfl, rfl⟩, rfl⟩ := h
                refine Or.inr (Or.inr (Or.inr (Or.inr (Or.inr (Or.inr (Or.inl
                  ⟨rfl, ?_⟩))))))
                rw [htw]
                simp only [identLexOk]
                rw [← htw]
                have h5f : (decide ('A' ≤ c) && decide (c ≤ 'Z')) = false :=
                  (Bool.not_eq_true _) ▸ h5
                have hlast : (decide (c = '_') &&
                    (List.takeWhile isAlphaNumeric cs2).isEmpty) = false := by
                  by_cases hc0 : c = '_'
                  · subst hc0
                    have hnx : isAlphaNumeric (cs2.head?.getD '\x00') = true := by
                      cases hbx : isAlphaNumeric (cs2.head?.getD '\x00') with
                      | true => rfl
                      | false => exact absurd (by simp [hbx]) h3
                    cases cs2 with
                    | nil => exact absurd hnx (by decide)
                    | cons d cs3 =>
                      simp only [List.head?_cons, Option.getD_some] at hnx
                      rw [List.takeWhile_cons_of_pos hnx]
                      simp
                  · simp [hc0]
                rw [h4, h5f, hallw, hkw, hlast]
                rfl
            · rw [hkw] at h
              dsimp only at h
              simp only [Except.ok.injEq, Option.some.injEq, Prod.mk.injEq] at h
              obtain ⟨⟨rfl, rfl⟩, rfl⟩ := h
              exact Or.inr (Or.inr (Or.inr (Or.inl hkw)))
          · rw [if_neg h4] at h
            have hsingle : ∀ (cc : Char) (tl : List Char),
                singleOrErr cc tl = .ok (some ((k, lx), rest)) →
                GoodTok (k, lx) := by
              intro cc tl hs
              unfold singleOrErr at hs
              rcases hsc : singleCharOp cc with _ | kk
              · rw [hsc] at hs; simp at hs
              · rw [hsc] at hs
                simp only [Except.ok.injEq, Option.some.injEq,
                  Prod.mk.injEq] at hs
                obtain ⟨⟨rfl, rfl⟩, rfl⟩ := hs
                exact Or.inr (Or.inr (Or.inr (Or.inr (Or.inr (Or.inr (Or.inr
                  (Or.inr ⟨cc, rfl, hsc⟩)))))))
            cases cs2 with
            | nil => exact hsingle c [] h
            | cons c2 cs3 =>
              dsimp only at h
              rcases htc : twoCharOp c c2 with _ | pr
              · rw [htc] at h
                dsimp only at h
                exact hsingle c (c2 :: cs3) h
              · rw [htc] at h
                dsimp only at h
                obtain ⟨kk, lxx⟩ := pr
                simp only [Except.ok.injEq, Option.some.injEq, Prod.mk.injEq] at h
                obtain ⟨⟨rfl, rfl⟩, rfl⟩ := h
                obtain ⟨p, hp, hk2⟩ := Option.map_eq_some'.mp htc
                have hpq : p.1 = (c, c2) := by simpa using List.find?_some hp
                obtain ⟨hk3, hl3⟩ := Prod.mk.inj hk2
                refine Or.inr (Or.inr (Or.inr (Or.inr (Or.inr (Or.inr (Or.inr
                  (Or.inl ⟨c, c2, ?_, htc⟩)))))))
                rw [← hl3, hpq]

theorem keywordKind_ne_eof {lx : List Char} {k : TokenKind}
    (h : keywordKind lx = some k) : k ≠ .EOF := by
  obtain ⟨p, hp, hk2⟩ := Option.map_eq_some'.mp h
  have hmem := List.mem_of_find?_eq_some hp
  subst hk2
  simp only [KEYWORDS, List.mem_cons, List.not_mem_nil, or_false] at hmem
  rcases hmem with rfl | rfl | rfl | rfl | rfl | rfl | rfl | rfl | rfl <;> decide

theorem twoCharOp_ne_eof {a b : Char} {k : TokenKind} {lx : List Char}
    (h : twoCharOp a b = some (k, lx)) : k ≠ .EOF := by
  obtain ⟨p, hp, hk2⟩ := Option.map_eq_some'.mp h
  have hmem := List.mem_of_find?_eq_some hp
  obtain ⟨hk3, -⟩ := Prod.mk.inj hk2
  subst hk3
  simp only [TWOCHAR, List.mem_cons, List.not_mem_nil, or_false] at hmem
  rcases hmem with rfl | rfl | rfl | rfl | rfl | rfl | rfl | rfl | rfl <;> decide

theorem singleCharOp_ne_eof {c : Char} {k : TokenKind}
    (h : singleCharOp c = some k) : k ≠ .EOF := by
  obtain ⟨p, hp, hk2⟩ := Option.map_eq_some'.mp h
  have hmem := List.mem_of_find?_eq_some hp
  subst hk2
  simp only [SINGLECHAR, List.mem_cons, List.not_mem_nil, or_false] at hmem
  rcases hmem with rfl | rfl | rfl | rfl | rfl | rfl | rfl | rfl | rfl | rfl
    | rfl | rfl | rfl | rfl | rfl | rfl | rfl | rfl | rfl | rfl <;> decide

theorem goodTok_ne_eof {k : TokenKind} {lx : List Char} (h : GoodTok (k, lx)) :
    k ≠ .EOF := by
  rcases h with ⟨rfl, -, -⟩ | ⟨rfl, -⟩ | ⟨rfl, -⟩ | hk | ⟨rfl, -⟩ | ⟨rfl, -⟩
    | ⟨rfl, -⟩ | ⟨a, b, -, hop⟩ | ⟨a, -, hop⟩
  · decide
  · decide
  · decide
  · exact keywordKind_ne_eof hk
  · decide
  · decide
  · decide
  · exact twoCharOp_ne_eof hop
  · exact singleCharOp_ne_eof hop

theorem goodTok_lexeme_ne_nil {k : TokenKind} {lx : List Char}
    (h : GoodTok (k, lx)) : lx ≠ [] := by
  rcases h with ⟨-, hne, -⟩ | ⟨-, hf⟩ | ⟨-, body, rfl, -⟩ | hk | ⟨-, rfl⟩
    | ⟨-, hu⟩ | ⟨-, hi⟩ | ⟨a, b, rfl, -⟩ | ⟨a, rfl, -⟩
  · exact hne
  · rintro rfl; exact absurd hf (by decide)
  · simp
  · rintro rfl
    rw [show keywordKind ([] : List Char) = none from rfl] at hk
    exact Option.noConfusion hk
  · simp
  · rintro rfl; exact absurd hu (by decide)
  · rintro rfl; exact absurd hi (by decide)
  · simp
  · simp

theorem lexLoop_sound : ∀ {fuel : Nat} {cs : List Char} {ts : List Tok},
    lexLoop fuel cs = .ok ts → ∀ t ∈ ts, GoodTok t := by
  intro fuel
  induction fuel with
  | zero => intro cs ts h; simp [lexLoop] at h
  | succ f ih =>
    intro cs ts h
    simp only [lexLoop] at h
    rcases hs : lexStep (skipWs cs) with e | o
    · rw [hs] at h; simp at h
    · rw [hs] at h
      rcases o with _ | ⟨t, rest⟩
      · dsimp only at h
        simp only [Except.ok.injEq] at h
        subst h
        intro t ht
        simp at ht
      · obtain ⟨kk, lxx⟩ := t
        dsimp only at h
        rcases hl : lexLoop f rest with e2 | ts2
        · rw [hl] at h; simp at h
        · rw [hl] at h
          dsimp only at h
          simp only [Except.ok.injEq] at h
          subst h
          intro t2 ht2
          rcases List.mem_cons.mp ht2 with rfl | hmem
          · exact lexStep_sound hs
          · exact ih hl t2 hmem

theorem lexLoop_space (f : Nat) (cs : List Char) :
    lexLoop f (' ' :: cs) = lexLoop f cs := by
  cases f with
  | zero => rfl
  | succ f2 => rfl

theorem render_length : ∀ (ts : List Tok), (∀ t ∈ ts, t.2 ≠ []) →
    ts.length ≤ (render ts).length := by
  intro ts
  induction ts with
  | nil => intro _; simp [render]
  | cons t ts2 ih =>
    intro h
    have hne := h t (by simp)
    have h1 : 1 ≤ t.2.length := by
      cases ht2 : t.2 with
      | nil => exact absurd ht2 hne
      | cons a l => simp
    cases ts2 with
    | nil =>
      simp only [render, List.length_cons, List.length_nil, List.append_nil]
      omega
    | cons u ts3 =>
      have hih := ih (fun x hx => h x (by simp [hx]))
      simp only [render, List.length_cons, List.length_append] at hih ⊢
      omega

theorem lexLoop_render : ∀ (ts : List Tok), (∀ t ∈ ts, GoodTok t) →
    ∀ fuel, ts.length < fuel → lexLoop fuel (render ts) = .ok ts := by
  intro ts
  induction ts with
  | nil =>
    intro _ fuel hf
    cases fuel with
    | zero => omega
    | succ f => rfl
  | cons t ts2 ih =>
    intro hg fuel hf
    obtain ⟨k, lx⟩ := t
    cases fuel with
    | zero => omega
    | succ f =>
      have hgt := hg (k, lx) (by simp)
      cases ts2 with
      | nil =>
        obtain ⟨hskip, hstep⟩ := lexStep_good hgt (Or.inl rfl)
        have hrest : lexLoop f [] = .ok [] := by
          cases f with
          | zero => simp only [List.length_cons, List.length_nil] at hf; omega
          | succ f2 => rfl
        rw [show render [(k, lx)] = lx ++ [] from rfl]
        simp only [lexLoop, hskip, hstep, hrest]
      | cons u ts3 =>
        obtain ⟨hskip, hstep⟩ :=
          lexStep_good hgt (Or.inr ⟨render (u :: ts3), rfl⟩)
        have hih := ih (fun x hx => hg x (by simp [hx])) f
          (by simp only [List.length_cons] at hf ⊢; omega)
        rw [show render ((k, lx) :: u :: ts3) =
          lx ++ ' ' :: render (u :: ts3) from rfl]
        simp only [lexLoop, hskip, hstep, lexLoop_space, hih]

/-- C7: the lexer round-trips — for any source on which `lex` succeeds,
re-rendering the produced tokens (all but the end-of-input sentinel) by
joining their lexemes with single spaces and lexing again yields exactly
the same token list, kinds and lexemes alike. -/
theorem claim_C7 {s : List Char} {ts : List Tok} (h : lex s = .ok ts) :
    lex (render (ts.filter (fun t => decide (t.1 ≠ TokenKind.EOF)))) = .ok ts := by
  unfold lex at h
  rcases hl : lexLoop (s.length + 1) s with e | core
  · rw [hl] at h; simp at h
  · rw [hl] at h
    dsimp only at h
    simp only [Except.ok.injEq] at h
    subst h
    have hg : ∀ t ∈ core, GoodTok t := lexLoop_sound hl
    have hfil : (core ++ [((TokenKind.EOF), ([] : List Char))]).filter
        (fun t => decide (t.1 ≠ TokenKind.EOF)) = core := by
      rw [List.filter_append]
      have h1 : core.filter (fun t => decide (t.1 ≠ TokenKind.EOF)) = core :=
        List.filter_eq_self.mpr (fun t ht => by
          obtain ⟨k, lx⟩ := t
          simpa using goodTok_ne_eof (hg _ ht))
      rw [h1]
      simp
    rw [hfil]
    unfold lex
    have hlen : core.length < (render core).length + 1 :=
      Nat.lt_succ_of_le (render_length core (fun t ht => by
        obtain ⟨k, lx⟩ := t
        exact goodTok_lexeme_ne_nil (hg _ ht)))
    rw [lexLoop_render core hg _ hlen]

theorem claim_C7_witness :
    lex (render (([((TokenKind.Ident : TokenKind), ['x']),
        ((TokenKind.Pipe : TokenKind), ['|', '>']),
        ((TokenKind.Int : TokenKind), ['4', '2']),
        ((TokenKind.EOF : TokenKind), [])] : List Tok).filter
      (fun t => decide (t.1 ≠ TokenKind.EOF)))) =
      .ok [((TokenKind.Ident : TokenKind), ['x']),
        ((TokenKind.Pipe : TokenKind), ['|', '>']),
        ((TokenKind.Int : TokenKind), ['4', '2']),
        ((TokenKind.EOF : TokenKind), [])] :=
  @claim_C7 "x |> 42".toList
    [((TokenKind.Ident : TokenKind), ['x']),
     ((TokenKind.Pipe : TokenKind), ['|', '>']),
     ((TokenKind.Int : TokenKind), ['4', '2']),
     ((TokenKind.EOF : TokenKind), [])] (by rfl)

end Leverr
